import Mathlib

/-!
Shallow embedding of the pathfinding core of `demo2.py`:
the grid data model, `get_neighbors`, `reconstruct_path`, `ucs`, `heuristic`,
`a_star`, and the editor-session operations (`click_cell`, dimension reset,
run buttons), together with theorems settling the specification claims.

Coordinates are pairs of integers `(row, col)` as in the Python source;
grid cell values are the source's sentinel integers
(0 free, 1 start, 2 goal, -1 obstacle, 3 path, 5 slow terrain).
-/

abbrev Coord := ℤ × ℤ

/-- A grid: dimensions plus the cell value at each coordinate
(the numpy 2D int array of the source). -/
structure Grid where
  rows : ℕ
  cols : ℕ
  val : Coord → ℤ

/-- Coordinate `c` is inside the grid bounds (`0 <= ni < grid.shape[0]`,
`0 <= nj < grid.shape[1]` in the source). -/
def inb (grid : Grid) (c : Coord) : Prop :=
  0 ≤ c.1 ∧ c.1 < (grid.rows : ℤ) ∧ 0 ≤ c.2 ∧ c.2 < (grid.cols : ℤ)

instance (grid : Grid) (c : Coord) : Decidable (inb grid c) := by
  unfold inb; infer_instance

/-- The four axis-aligned direction offsets, in source order:
up, down, left, right. -/
def dirs : List Coord := [(-1, 0), (1, 0), (0, -1), (0, 1)]

/-- Source `get_neighbors(pos, grid)`: the in-bounds, non-obstacle
4-neighbors of `pos`, in the fixed direction order. -/
def get_neighbors (pos : Coord) (grid : Grid) : List Coord :=
  dirs.filterMap (fun d =>
    let n : Coord := (pos.1 + d.1, pos.2 + d.2)
    if inb grid n ∧ grid.val n ≠ -1 then some n else none)

/-- Association-list lookup (Python `dict` read). -/
def lookupA {β : Type} : List (Coord × β) → Coord → Option β
  | [], _ => none
  | q :: rest, k => if q.1 = k then some q.2 else lookupA rest k

/-- Association-list write (Python `dict` assignment): replace the first
binding of the key, or append a new binding. -/
def updA {β : Type} : List (Coord × β) → Coord → β → List (Coord × β)
  | [], k, v => [(k, v)]
  | q :: rest, k, v => if q.1 = k then (k, v) :: rest else q :: updA rest k v

/-- Auxiliary recursion for `reconstruct_path`: follow the `came_from`
chain, collecting coordinates (goal first), with enough fuel to cover any
acyclic chain. -/
def reconstructAux (came_from : List (Coord × Coord)) : ℕ → Coord → List Coord
  | 0, _ => []
  | fuel + 1, current =>
    match lookupA came_from current with
    | some prev => current :: reconstructAux came_from fuel prev
    | none => []

/-- Source `reconstruct_path(came_from, current)`: walk predecessors while
`current in came_from`, then reverse.  The fuel `length + 1` covers every
chain that does not revisit a key. -/
def reconstruct_path (came_from : List (Coord × Coord)) (current : Coord) : List Coord :=
  (reconstructAux came_from (came_from.length + 1) current).reverse

/-- Cost of entering a cell: 5 on slow terrain (value 5), else 1
(the inline `move_cost` computation of the source). -/
def move_cost (grid : Grid) (c : Coord) : ℕ :=
  if grid.val c = 5 then 5 else 1

/-- Lexicographic comparison of coordinates (Python tuple comparison). -/
def coordLe (a b : Coord) : Bool :=
  decide (a.1 < b.1) || (decide (a.1 = b.1) && decide (a.2 ≤ b.2))

/-- Comparison of `ucs` priority-queue entries `(cost, coord)`
(Python tuple comparison, as used by `heapq`). -/
def uEntryLe (a b : ℕ × Coord) : Bool :=
  decide (a.1 < b.1) || (decide (a.1 = b.1) && coordLe a.2 b.2)

/-- Comparison of `a_star` open-set entries `(f, g, coord)`
(Python tuple comparison, as used by `heapq`). -/
def entryLe (a b : ℕ × ℕ × Coord) : Bool :=
  decide (a.1 < b.1) ||
    (decide (a.1 = b.1) &&
      (decide (a.2.1 < b.2.1) || (decide (a.2.1 = b.2.1) && coordLe a.2.2 b.2.2)))

/-- Extract a minimal element (w.r.t. `le`) from a list, returning it and
the remaining elements (`heapq.heappop`; the heap is modelled as the
multiset of its entries, and the popped entry is the unique minimum). -/
def popMinBy {α : Type} (le : α → α → Bool) : List α → Option (α × List α)
  | [] => none
  | x :: xs =>
    match popMinBy le xs with
    | none => some (x, [])
    | some (m, rest) => if le x m then some (x, xs) else some (m, x :: rest)

/-- Result of running `ucs`: a normal return value, the `NameError`
raised when line 45 reads the unbound variable `neighbor`, or exhaustion
of the loop fuel (shown unreachable: the queue only shrinks). -/
inductive URes
  | ok (path : List Coord)
  | nameError
  | fuelOut
deriving DecidableEq, Repr

/-- The binding of the source's `neighbor`/`move_cost` variables after the
`for` loop over `get_neighbors(current, grid)`: the last neighbor with its
move cost, or the previous binding when the neighbor list is empty. -/
def updateLastNbr (grid : Grid) (current : Coord) (lastNbr : Option (Coord × ℕ)) :
    Option (Coord × ℕ) :=
  match (get_neighbors current grid).getLast? with
  | some n => some (n, move_cost grid n)
  | none => lastNbr

/-- The `while` loop of source `ucs` (lines 30-43) followed by the
misindented block (lines 45-48) and the final `return []` (line 50).
Because the enqueue block sits outside the loop, nothing is ever pushed
onto `pq` inside the loop; the loop only pops.  After the loop exits, the
source reads `neighbor`, which raises `NameError` when no iteration of the
inner `for` loop ever ran. -/
def ucsLoop (grid : Grid) (goal : Coord) :
    ℕ → List (ℕ × Coord) → List Coord → List (Coord × Coord) → Option (Coord × ℕ) → URes
  | 0, _, _, _, _ => URes.fuelOut
  | fuel + 1, pq, visited, came_from, lastNbr =>
    match popMinBy uEntryLe pq with
    | none =>
      -- the while loop has exited; source lines 45-50
      match lastNbr with
      | none => URes.nameError
      | some _ =>
        -- `if neighbor not in visited:` pushes onto the (dead) queue and
        -- records a predecessor, then `return []` discards both
        URes.ok []
    | some ((_, current), rest) =>
      if current = goal then URes.ok (reconstruct_path came_from current)
      else if current ∈ visited then ucsLoop grid goal fuel rest visited came_from lastNbr
      else
        ucsLoop grid goal fuel rest (current :: visited) came_from
          (updateLastNbr grid current lastNbr)

/-- Source `ucs(grid, start, goal)`.  Nothing is ever pushed inside the
loop, so the queue shrinks at every iteration and fuel `pq.length + 1`
always suffices (the fuel is reset to exactly that at every call). -/
def ucs (grid : Grid) (start goal : Coord) : URes :=
  ucsLoop grid goal 2 [(0, start)] [] [] none

/-- Source `heuristic(a, b)`: Manhattan distance. -/
def heuristic (a b : Coord) : ℕ :=
  (a.1 - b.1).natAbs + (a.2 - b.2).natAbs

/-- Result of running `a_star`: a normal return value, the `KeyError` that
`g_score[current]` would raise on a missing key, or exhaustion of the
loop fuel (shown unreachable). -/
inductive ARes
  | ok (path : List Coord)
  | keyError
  | fuelOut
deriving DecidableEq, Repr

/-- State of the `a_star` loop: the open set (heap contents), the
`came_from` map and the `g_score` map. -/
structure AState where
  open_set : List (ℕ × ℕ × Coord)
  came_from : List (Coord × Coord)
  g_score : List (Coord × ℕ)

/-- One iteration of the source's `for neighbor in get_neighbors(...)` body
(lines 65-74): compute `tentative_g` from `g_score[current]` and relax the
neighbor, pushing `(f, tentative_g, neighbor)` when the score improves.
Returns `none` if `g_score[current]` is missing (Python `KeyError`). -/
def relaxNbr (grid : Grid) (goal current : Coord) (st : AState) (neighbor : Coord) :
    Option AState :=
  match lookupA st.g_score current with
  | none => none
  | some gcur =>
    let tentative_g := gcur + move_cost grid neighbor
    let doPush : Bool :=
      match lookupA st.g_score neighbor with
      | none => true
      | some gn => decide (tentative_g < gn)
    if doPush then
      some { open_set := (tentative_g + heuristic neighbor goal, tentative_g, neighbor)
                          :: st.open_set,
             came_from := updA st.came_from neighbor current,
             g_score := updA st.g_score neighbor tentative_g }
    else some st

/-- The full `for` loop over the neighbors of `current`. -/
def foldRelax (grid : Grid) (goal current : Coord) : AState → List Coord → Option AState
  | st, [] => some st
  | st, n :: ns =>
    match relaxNbr grid goal current st n with
    | none => none
    | some st' => foldRelax grid goal current st' ns

/-- The `while open_set` loop of source `a_star` (lines 60-74) with fuel. -/
def aStarLoop (grid : Grid) (goal : Coord) : ℕ → AState → ARes
  | 0, _ => ARes.fuelOut
  | fuel + 1, st =>
    match popMinBy entryLe st.open_set with
    | none => ARes.ok []
    | some ((_, _, current), rest) =>
      if current = goal then ARes.ok (reconstruct_path st.came_from current)
      else
        match foldRelax grid goal current { st with open_set := rest }
            (get_neighbors current grid) with
        | none => ARes.keyError
        | some st' => aStarLoop grid goal fuel st'

/-- Source `a_star(grid, start, goal)`.  The fuel exceeds the potential
bound `Phi` of the initial state, which (as proved below) makes the
fuel-out branch unreachable. -/
def a_star (grid : Grid) (start goal : Coord) : ARes :=
  aStarLoop grid goal (grid.rows * grid.cols * (5 * (grid.rows * grid.cols) + 7) + 3)
    { open_set := [(heuristic start goal, 0, start)],
      came_from := [],
      g_score := [(start, 0)] }

/-- A traversable 4-connected route: each listed coordinate is an
in-bounds, non-obstacle neighbor of the previous one and the route ends at
the goal (used to state claims; the route excludes the start cell, like the
search's reconstruction contract). -/
def isRouteFrom (grid : Grid) : Coord → List Coord → Coord → Bool
  | cur, [], g => decide (cur = g)
  | cur, n :: ns, g => decide (n ∈ get_neighbors cur grid) && isRouteFrom grid n ns g

/-- Total accumulated cost of a route (sum of entry costs of its cells). -/
def routeCost (grid : Grid) (path : List Coord) : ℕ :=
  (path.map (move_cost grid)).sum

/-! ### Editor session (session-state and click handling of `demo2.py`) -/

/-- Placement mode selected by the radio control. -/
inductive Mode
  | start
  | goal
  | obstacle
  | erase
deriving DecidableEq, Repr

/-- Which search a run command invokes. -/
inductive Alg
  | astar
  | ucsAlg
deriving DecidableEq, Repr

/-- Editor session state: grid shape, cell values, the two placed flags and
the `path_algorithm` session key. -/
structure EditorState where
  rows : ℕ
  cols : ℕ
  grid : Coord → ℤ
  start_set : Bool
  goal_set : Bool
  path_algorithm : Option Alg

/-- View the editor grid as a search grid. -/
def gridOf (st : EditorState) : Grid :=
  ⟨st.rows, st.cols, st.grid⟩

/-- Source `click_cell(i, j)` (lines 125-145), for the given mode. -/
def click_cell (st : EditorState) (mode : Mode) (c : Coord) : EditorState :=
  match mode with
  | .start =>
    if st.start_set then st
    else { st with grid := fun p => if p = c then 1 else st.grid p, start_set := true }
  | .goal =>
    if st.goal_set then st
    else { st with grid := fun p => if p = c then 2 else st.grid p, goal_set := true }
  | .obstacle =>
    if st.grid c = 0 then { st with grid := fun p => if p = c then -1 else st.grid p }
    else st
  | .erase =>
    let st' :=
      if st.grid c = 1 then { st with start_set := false }
      else if st.grid c = 2 then { st with goal_set := false }
      else st
    { st' with grid := fun p => if p = c then 0 else st'.grid p }

/-- Apply a finite sequence of placement commands. -/
def applyClicks (st : EditorState) (cmds : List (Mode × Coord)) : EditorState :=
  cmds.foldl (fun s mc => click_cell s mc.1 mc.2) st

/-- The editor state created for a fresh grid of the given shape
(lines 86-92 plus the `path_algorithm` initialisation of line 174). -/
def initEditor (r c : ℕ) : EditorState :=
  ⟨r, c, fun _ => 0, false, false, none⟩

/-- Dimension-change handling (lines 87-92): when the selected shape
differs from the current one, reallocate an all-free grid and clear both
placed flags.  `path_algorithm` is not touched (line 173 only initialises
it when the key is missing). -/
def set_dimensions (st : EditorState) (r c : ℕ) : EditorState :=
  if st.rows ≠ r ∨ st.cols ≠ c then
    { rows := r, cols := c, grid := fun _ => 0, start_set := false, goal_set := false,
      path_algorithm := st.path_algorithm }
  else st

/-- All in-bounds coordinates in row-major order (the order in which
`np.argwhere` reports matches). -/
def cellList (st : EditorState) : List Coord :=
  (List.range st.rows).bind
    (fun (i : ℕ) => (List.range st.cols).map (fun (j : ℕ) => ((i : ℤ), (j : ℤ))))

/-- First cell holding the given value, row-major
(`tuple(np.argwhere(grid == v)[0])`, or `None` when there is none). -/
def findFirst (st : EditorState) (v : ℤ) : Option Coord :=
  (cellList st).find? (fun c => decide (st.grid c = v))

/-- Fold the returned path into the grid: cells currently free become path
markers (`for cell in path: if grid[cell] == 0: grid[cell] = 3`). -/
def overlayPath (g : Coord → ℤ) (path : List Coord) : Coord → ℤ :=
  path.foldl (fun f cell => if f cell = 0 then (fun p => if p = cell then 3 else f p) else f) g

/-- A run-button press (lines 184-194 for A*, 206-216 for UCS): when both a
start and a goal cell exist, run the chosen search on a copy of the grid,
overlay the path and record the algorithm; otherwise warn and change
nothing.  The second component records whether the warning was shown;
`none` means the underlying search raised (UCS `NameError`), which would
propagate out of the button handler. -/
def run_algorithm (st : EditorState) (alg : Alg) : Option (EditorState × Bool) :=
  match findFirst st 1, findFirst st 2 with
  | some s, some g =>
    match (match alg with
           | .astar => (match a_star (gridOf st) s g with
                        | ARes.ok p => some p
                        | _ => none)
           | .ucsAlg => (match ucs (gridOf st) s g with
                         | URes.ok p => some p
                         | _ => none)) with
    | none => none
    | some path =>
      some ({ st with grid := overlayPath st.grid path, path_algorithm := some alg }, false)
  | _, _ => some (st, true)

/-! ### Concrete grids used by the claims -/

/-- A 2 by 2 all-free grid. -/
def free2 : Grid := ⟨2, 2, fun _ => 0⟩

/-- A 2 by 2 grid whose two middle cells are obstacles, so the corner
`(0, 0)` has no in-bounds non-obstacle neighbor. -/
def blocked2 : Grid := ⟨2, 2, fun c => if c = ((0 : ℤ), (1 : ℤ)) ∨ c = ((1 : ℤ), (0 : ℤ)) then -1 else 0⟩

/-- A 5 by 5 all-free grid. -/
def free5 : Grid := ⟨5, 5, fun _ => 0⟩

/-- A 3 by 3 grid with one slow-terrain cell at `(0, 1)` and everything
else free. -/
def gA : Grid := ⟨3, 3, fun c => if c = ((0 : ℤ), (1 : ℤ)) then 5 else 0⟩

/-- A 3 by 3 grid with slow terrain at `(0, 1)` and an obstacle at
`(1, 1)`: exactly two simple routes lead from `(0, 0)` to `(2, 2)`, a
geodesic through the slow cell (cost 8) and an all-free geodesic
(cost 4). -/
def gF : Grid :=
  ⟨3, 3, fun c => if c = ((0 : ℤ), (1 : ℤ)) then 5 else if c = ((1 : ℤ), (1 : ℤ)) then -1 else 0⟩

/-! ### Predicates and concrete data used in claim statements -/

/-- Coordinate within an `R` by `C` grid shape. -/
def inBounds (R C : ℕ) (p : Coord) : Prop :=
  0 ≤ p.1 ∧ p.1 < (R : ℤ) ∧ 0 ≤ p.2 ∧ p.2 < (C : ℤ)

instance (R C : ℕ) (p : Coord) : Decidable (inBounds R C p) := by
  unfold inBounds; infer_instance

/-- No in-bounds cell of the grid function holds the value `v`. -/
def noValIn (R C : ℕ) (g : Coord → ℤ) (v : ℤ) : Prop :=
  ∀ p, inBounds R C p → g p ≠ v

/-- At most one in-bounds cell of the grid function holds the value `v`. -/
def atMostOneVal (R C : ℕ) (g : Coord → ℤ) (v : ℤ) : Prop :=
  ∀ p q, inBounds R C p → inBounds R C q → g p = v → g q = v → p = q

/-- The placement invariant the editor maintains: a cleared placed flag
means no corresponding cell exists, and each of start (1) and goal (2)
occupies at most one cell. -/
def PlacedInv (st : EditorState) : Prop :=
  (st.start_set = false → noValIn st.rows st.cols st.grid 1) ∧
  atMostOneVal st.rows st.cols st.grid 1 ∧
  (st.goal_set = false → noValIn st.rows st.cols st.grid 2) ∧
  atMostOneVal st.rows st.cols st.grid 2

/-- A sample placement-command sequence on a 5 by 5 grid. -/
def cmds0 : List (Mode × Coord) :=
  [(Mode.start, (0, 0)), (Mode.goal, (1, 1)), (Mode.obstacle, (2, 2)), (Mode.erase, (0, 0)),
   (Mode.start, (3, 3))]

/-- The editor state after placing Start at `(0, 0)` and then, with no goal
placed yet, clicking `(0, 0)` in Goal mode. -/
def st9 : EditorState :=
  applyClicks (initEditor 5 5) [(Mode.start, (0, 0)), (Mode.goal, (0, 0))]

/-- An editor state on a 5 by 5 grid whose `path_algorithm` records a
previous A* run. -/
def stC8 : EditorState := { initEditor 5 5 with path_algorithm := some Alg.astar }

/-! ### Invariants and the termination potential of the `a_star` loop -/

/-- The initial `a_star` state (source lines 56-58). -/
def initAState (start goal : Coord) : AState :=
  { open_set := [(heuristic start goal, 0, start)],
    came_from := [],
    g_score := [(start, 0)] }

/-- The state produced by the push branch of `relaxNbr` (source lines
71-74) when `g_score[current] = gcur`. -/
def pushState (grid : Grid) (goal current : Coord) (st : AState) (neighbor : Coord)
    (gcur : ℕ) : AState :=
  { open_set := (gcur + move_cost grid neighbor + heuristic neighbor goal,
                 gcur + move_cost grid neighbor, neighbor) :: st.open_set,
    came_from := updA st.came_from neighbor current,
    g_score := updA st.g_score neighbor (gcur + move_cost grid neighbor) }

/-- Sum of all recorded `g_score` values, each counted once plus one. -/
def sumPlus (m : List (Coord × ℕ)) : ℕ :=
  (m.map (fun q => q.2 + 1)).sum

/-- Termination potential of an `a_star` state: it strictly decreases at
every loop iteration, because a coordinate is (re-)pushed only when its
recorded `g_score` strictly decreases and fresh keys are bounded in number
and value. -/
def Phi (grid : Grid) (st : AState) : ℕ :=
  sumPlus st.g_score +
    (grid.rows * grid.cols + 1 - st.g_score.length) * (5 * (grid.rows * grid.cols + 1) + 2) +
    st.open_set.length

/-- Core invariant of the `a_star` loop state: the maps have distinct keys
drawn from the start cell and the in-bounds cells, `g_score[start] = 0`,
every open entry `(f, g, c)` has a recorded score at most `g` and
`f = g + h(c)`, every `came_from` binding descends from a recorded
neighbor with cost slack, the `came_from` keys are exactly the non-start
recorded keys, and recorded values are bounded by five times the number of
`came_from` bindings. -/
structure AInvCore (grid : Grid) (start goal : Coord) (st : AState) : Prop where
  g_nodup : (st.g_score.map Prod.fst).Nodup
  c_nodup : (st.came_from.map Prod.fst).Nodup
  g_sub : ∀ k ∈ st.g_score.map Prod.fst, k = start ∨ inb grid k
  g_start : lookupA st.g_score start = some 0
  open_inv : ∀ e ∈ st.open_set, ∃ v, lookupA st.g_score e.2.2 = some v ∧ v ≤ e.2.1 ∧
    e.1 = e.2.1 + heuristic e.2.2 goal
  came_inv : ∀ q ∈ st.came_from, ∃ vc vp, lookupA st.g_score q.1 = some vc ∧
    lookupA st.g_score q.2 = some vp ∧ vp + move_cost grid q.1 ≤ vc ∧
    q.1 ∈ get_neighbors q.2 grid ∧ q.1 ≠ start
  keys_iff : ∀ k, (lookupA st.g_score k).isSome ↔ (k = start ∨ (lookupA st.came_from k).isSome)
  len_rel : st.came_from.length + 1 = st.g_score.length
  val_bound : ∀ q ∈ st.g_score, q.2 ≤ 5 * st.came_from.length

/-- Every recorded coordinate either has a faithful open entry (whose `g`
equals its current recorded score) or has been fully expanded: it is not
the goal and each of its neighbors carries a recorded score within one
step's cost. -/
def relaxClause (grid : Grid) (goal : Coord) (st : AState) : Prop :=
  ∀ q ∈ st.g_score,
    ((q.2 + heuristic q.1 goal, q.2, q.1) ∈ st.open_set) ∨
    (q.1 ≠ goal ∧ ∀ n ∈ get_neighbors q.1 grid,
      ∃ vn, lookupA st.g_score n = some vn ∧ vn ≤ q.2 + move_cost grid n)

/-- Full invariant of the `a_star` loop. -/
def AInv (grid : Grid) (start goal : Coord) (st : AState) : Prop :=
  AInvCore grid start goal st ∧ relaxClause grid goal st

/-- A grid with no obstacle and no slow-terrain cell. -/
def FreeGrid (grid : Grid) : Prop :=
  ∀ c, inb grid c → grid.val c ≠ -1 ∧ grid.val c ≠ 5

/-- On free grids every recorded score is bounded by the number of
`came_from` bindings (all step costs are 1). -/
def gBoundFree (st : AState) : Prop :=
  ∀ q ∈ st.g_score, q.2 ≤ st.came_from.length

/-- Relations between an `a_star` state and its successor after one
neighbor-relaxation step, used to carry the invariant through the loop. -/
def RelaxSpec (grid : Grid) (start goal : Coord) (st st' : AState) (current n : Coord)
    (gcur : ℕ) : Prop :=
  AInvCore grid start goal st' ∧
  lookupA st'.g_score current = some gcur ∧
  (∀ x v, lookupA st.g_score x = some v → ∃ v', v' ≤ v ∧ lookupA st'.g_score x = some v') ∧
  (∀ e ∈ st.open_set, e ∈ st'.open_set) ∧
  (∃ vn, vn ≤ gcur + move_cost grid n ∧ lookupA st'.g_score n = some vn) ∧
  (∀ x, (∃ v, lookupA st'.g_score x = some v ∧ (v + heuristic x goal, v, x) ∈ st'.open_set) ∨
    lookupA st'.g_score x = lookupA st.g_score x) ∧
  Phi grid st' ≤ Phi grid st ∧
  st.came_from.length ≤ st'.came_from.length ∧
  (FreeGrid grid → gBoundFree st → gBoundFree st')

/-! ## Theorems -/

theorem popMinBy_isSome {α : Type} (le : α → α → Bool) (x : α) (xs : List α) :
    (popMinBy le (x :: xs)).isSome := by
  rw [popMinBy]
  cases popMinBy le xs with
  | none => simp
  | some p => obtain ⟨m, r⟩ := p; dsimp only; split <;> simp

theorem popMinBy_none {α : Type} {le : α → α → Bool} {l : List α}
    (h : popMinBy le l = none) : l = [] := by
  cases l with
  | nil => rfl
  | cons x xs => have := popMinBy_isSome le x xs; rw [h] at this; simp at this

theorem popMinBy_length {α : Type} (le : α → α → Bool) (l : List α) (e : α) (rest : List α)
    (h : popMinBy le l = some (e, rest)) : rest.length + 1 = l.length := by
  induction l generalizing e rest with
  | nil => simp [popMinBy] at h
  | cons x xs ih =>
    cases hx : popMinBy le xs with
    | none =>
      rw [popMinBy, hx] at h
      obtain rfl : xs = [] := popMinBy_none hx
      simp only [Option.some.injEq, Prod.mk.injEq] at h
      obtain ⟨-, rfl⟩ := h
      simp
    | some p =>
      obtain ⟨m, r⟩ := p
      rw [popMinBy, hx] at h
      by_cases hle : le x m = true
      · simp only [hle, if_true, Option.some.injEq, Prod.mk.injEq] at h
        obtain ⟨-, rfl⟩ := h
        simp
      · simp only [hle, if_false, Bool.false_eq_true, Option.some.injEq, Prod.mk.injEq] at h
        obtain ⟨-, rfl⟩ := h
        have := ih m r hx
        simp [← this]

/-! ### Behavior of `ucs` (claims C1, C2, C3) -/

theorem ucs_nameError_iff (grid : Grid) (start goal : Coord) :
    ucs grid start goal = URes.nameError ↔ start ≠ goal ∧ get_neighbors start grid = [] := by
  constructor
  · intro h
    by_cases hne : start = goal
    · simp [ucs, ucsLoop, popMinBy, hne] at h
    · by_cases hnb : get_neighbors start grid = []
      · exact ⟨hne, hnb⟩
      · obtain ⟨n, hn⟩ := Option.isSome_iff_exists.mp (List.getLast?_isSome.mpr hnb)
        simp [ucs, ucsLoop, popMinBy, updateLastNbr, hn, hne] at h
  · rintro ⟨hne, hnb⟩
    have hn : (get_neighbors start grid).getLast? = none := by simp [hnb]
    simp [ucs, ucsLoop, popMinBy, updateLastNbr, hn, hne]

theorem ucs_ok_empty (grid : Grid) (start goal : Coord)
    (hne : start ≠ goal) (hnb : get_neighbors start grid ≠ []) :
    ucs grid start goal = URes.ok [] := by
  obtain ⟨n, hn⟩ := Option.isSome_iff_exists.mp (List.getLast?_isSome.mpr hnb)
  simp [ucs, ucsLoop, popMinBy, updateLastNbr, hn, hne]

theorem ucs_ok_of_eq (grid : Grid) {start goal : Coord} (h : start = goal) :
    ucs grid start goal = URes.ok [] := by
  subst h
  simp [ucs, ucsLoop, popMinBy, reconstruct_path, reconstructAux, lookupA]

/-- Claim C1 (code bug): on a 2 by 2 all-free grid a one-step traversable
route from `(0, 0)` to `(0, 1)` exists, yet `ucs` returns the empty
sequence instead of the non-empty reconstructed path, because its
neighbor-enqueue block sits outside the expansion loop. -/
theorem c1_ucs_returns_empty_despite_route :
    isRouteFrom free2 (0, 0) [(0, 1)] (0, 1) = true ∧
    (0, 0) ≠ ((0 : ℤ), (1 : ℤ)) ∧
    inb free2 (0, 0) ∧ inb free2 (0, 1) ∧
    ucs free2 (0, 0) (0, 1) = URes.ok [] := by
  refine ⟨by decide, by decide, by decide, by decide, by decide⟩

/-- Claim C2 (counterexample): with in-bounds start `(0, 0)` and goal
`(1, 1)` on a 2 by 2 grid whose other two cells are obstacles, `start` has
no in-bounds non-obstacle neighbor and `ucs` raises `NameError` (it reads
the unbound loop variable `neighbor`), so the search does not run to a
normal result. -/
theorem c2_counterexample_ucs_raises :
    inb blocked2 (0, 0) ∧ inb blocked2 (1, 1) ∧ (0, 0) ≠ ((1 : ℤ), (1 : ℤ)) ∧
    ucs blocked2 (0, 0) (1, 1) = URes.nameError := by
  refine ⟨by decide, by decide, by decide, by decide⟩

/-- Claim C3: whenever `start ≠ goal` and `start` has at least one
in-bounds non-obstacle neighbor, `ucs` returns the empty sequence: its
enqueue statement is outside the expansion loop, so the queue empties
after the single pop of `start` and the goal is never reached. -/
theorem c3_ucs_always_empty_when_neighbor_exists (grid : Grid) (start goal : Coord)
    (hne : start ≠ goal) (hnb : get_neighbors start grid ≠ []) :
    ucs grid start goal = URes.ok [] :=
  ucs_ok_empty grid start goal hne hnb

theorem c3_witness :
    ((0, 0) ≠ ((1 : ℤ), (1 : ℤ)) ∧ get_neighbors (0, 0) free2 ≠ []) ∧
    ucs free2 (0, 0) (1, 1) = URes.ok [] :=
  ⟨⟨by decide, by decide⟩,
    c3_ucs_always_empty_when_neighbor_exists free2 (0, 0) (1, 1) (by decide) (by decide)⟩

/-! ### A* on the concrete slow-terrain grids (claim C5) -/

/-- Claim C5 (counterexample): on the 3 by 3 grid `gA` (slow terrain at
`(0, 1)`, start `(0, 0)`, goal `(2, 2)`) both routes described by the
claim exist: a geodesic through the slow cell of cost 8, and an entirely
free route two cells longer of cost 6, the cheaper of the two.  Yet
`a_star` returns neither: it returns a third, all-free geodesic of
cost 4. -/
theorem c5_counterexample_astar_returns_neither_route :
    isRouteFrom gA (0, 0) [(0, 1), (0, 2), (1, 2), (2, 2)] (2, 2) = true ∧
    gA.val (0, 1) = 5 ∧
    routeCost gA [(0, 1), (0, 2), (1, 2), (2, 2)] = 8 ∧
    isRouteFrom gA (0, 0) [(1, 0), (2, 0), (2, 1), (1, 1), (1, 2), (2, 2)] (2, 2) = true ∧
    (∀ cell ∈ [((1 : ℤ), (0 : ℤ)), (2, 0), (2, 1), (1, 1), (1, 2), (2, 2)], gA.val cell = 0) ∧
    routeCost gA [(1, 0), (2, 0), (2, 1), (1, 1), (1, 2), (2, 2)] = 6 ∧
    a_star gA (0, 0) (2, 2) = ARes.ok [(1, 0), (1, 1), (1, 2), (2, 2)] ∧
    ([((1 : ℤ), (0 : ℤ)), (1, 1), (1, 2), (2, 2)] ≠
      [((1 : ℤ), (0 : ℤ)), (2, 0), (2, 1), (1, 1), (1, 2), (2, 2)]) ∧
    ([((1 : ℤ), (0 : ℤ)), (1, 1), (1, 2), (2, 2)] ≠ [((0 : ℤ), (1 : ℤ)), (0, 2), (1, 2), (2, 2)]) ∧
    routeCost gA [(1, 0), (1, 1), (1, 2), (2, 2)] = 4 := by
  refine ⟨by decide, by decide, by decide, by decide, by decide, by decide, by decide,
    by decide, by decide, by decide⟩

/-- Claim C5 (amended): on the 3 by 3 grid `gF` (slow terrain at `(0, 1)`,
obstacle at `(1, 1)`, start `(0, 0)`, goal `(2, 2)`) exactly two routes
compete: a geodesic through the slow cell of cost 8 and an entirely free
route of cost 4.  `a_star` returns the route with the lower total
accumulated cost, the all-free one. -/
theorem c5_astar_picks_cheaper_route :
    gF.val (0, 1) = 5 ∧ gF.val (1, 1) = -1 ∧
    isRouteFrom gF (0, 0) [(0, 1), (0, 2), (1, 2), (2, 2)] (2, 2) = true ∧
    routeCost gF [(0, 1), (0, 2), (1, 2), (2, 2)] = 8 ∧
    isRouteFrom gF (0, 0) [(1, 0), (2, 0), (2, 1), (2, 2)] (2, 2) = true ∧
    (∀ cell ∈ [((1 : ℤ), (0 : ℤ)), (2, 0), (2, 1), (2, 2)], gF.val cell = 0) ∧
    routeCost gF [(1, 0), (2, 0), (2, 1), (2, 2)] = 4 ∧
    a_star gF (0, 0) (2, 2) = ARes.ok [(1, 0), (2, 0), (2, 1), (2, 2)] := by
  refine ⟨by decide, by decide, by decide, by decide, by decide, by decide, by decide, by decide⟩

/-! ### Editor-session claims (C6, C7, C8, C9) -/

theorem inb_gridOf (st : EditorState) (p : Coord) :
    inb (gridOf st) p ↔ inBounds st.rows st.cols p := Iff.rfl

theorem atMostOne_of_no {R C : ℕ} {g : Coord → ℤ} {v w : ℤ} {c : Coord}
    (hno : noValIn R C g v) :
    atMostOneVal R C (fun p => if p = c then w else g p) v := by
  intro p q hp hq hpv hqv
  dsimp only at hpv hqv
  by_cases hpc : p = c
  · by_cases hqc : q = c
    · rw [hpc, hqc]
    · rw [if_neg hqc] at hqv
      exact absurd hqv (hno q hq)
  · rw [if_neg hpc] at hpv
    exact absurd hpv (hno p hp)

theorem noValIn_update_ne {R C : ℕ} {g : Coord → ℤ} {v w : ℤ} {c : Coord}
    (hw : w ≠ v) (hg : noValIn R C g v) :
    noValIn R C (fun p => if p = c then w else g p) v := by
  intro p hp
  dsimp only
  by_cases hpc : p = c
  · rw [if_pos hpc]
    exact hw
  · rw [if_neg hpc]
    exact hg p hp

theorem atMostOne_update_ne {R C : ℕ} {g : Coord → ℤ} {v w : ℤ} {c : Coord}
    (hw : w ≠ v) (h : atMostOneVal R C g v) :
    atMostOneVal R C (fun p => if p = c then w else g p) v := by
  intro p q hp hq hpv hqv
  dsimp only at hpv hqv
  by_cases hpc : p = c
  · rw [if_pos hpc] at hpv
    exact absurd hpv hw
  · by_cases hqc : q = c
    · rw [if_pos hqc] at hqv
      exact absurd hqv hw
    · rw [if_neg hpc] at hpv
      rw [if_neg hqc] at hqv
      exact h p q hp hq hpv hqv

theorem noValIn_update_of_atMostOne {R C : ℕ} {g : Coord → ℤ} {v w : ℤ} {c : Coord}
    (hc : inBounds R C c) (hgc : g c = v) (hw : w ≠ v) (h : atMostOneVal R C g v) :
    noValIn R C (fun p => if p = c then w else g p) v := by
  intro p hp
  dsimp only
  by_cases hpc : p = c
  · rw [if_pos hpc]
    exact hw
  · rw [if_neg hpc]
    intro hpv
    exact hpc (h p c hp hc hpv hgc)

theorem click_preserves (st : EditorState) (m : Mode) (c : Coord)
    (hc : inBounds st.rows st.cols c) (h : PlacedInv st) : PlacedInv (click_cell st m c) := by
  obtain ⟨h1, h2, h3, h4⟩ := h
  cases m with
  | start =>
    by_cases hs : st.start_set
    · simpa [click_cell, hs] using ⟨h1, h2, h3, h4⟩
    · have hs' : st.start_set = false := by simpa using hs
      have hno := h1 hs'
      simp only [click_cell, hs', Bool.false_eq_true, if_false]
      refine ⟨by simp, atMostOne_of_no hno, ?_, atMostOne_update_ne (by norm_num) h4⟩
      intro hg
      exact noValIn_update_ne (by norm_num) (h3 hg)
  | goal =>
    by_cases hs : st.goal_set
    · simpa [click_cell, hs] using ⟨h1, h2, h3, h4⟩
    · have hs' : st.goal_set = false := by simpa using hs
      have hno := h3 hs'
      simp only [click_cell, hs', Bool.false_eq_true, if_false]
      refine ⟨?_, atMostOne_update_ne (by norm_num) h2, by simp, atMostOne_of_no hno⟩
      intro hg
      exact noValIn_update_ne (by norm_num) (h1 hg)
  | obstacle =>
    by_cases h0 : st.grid c = 0
    · simp only [click_cell, h0, if_true]
      refine ⟨?_, atMostOne_update_ne (by norm_num) h2, ?_,
        atMostOne_update_ne (by norm_num) h4⟩
      · intro hg
        exact noValIn_update_ne (by norm_num) (h1 hg)
      · intro hg
        exact noValIn_update_ne (by norm_num) (h3 hg)
    · simpa [click_cell, h0] using ⟨h1, h2, h3, h4⟩
  | erase =>
    simp only [click_cell]
    by_cases hg1 : st.grid c = 1
    · simp only [hg1, if_true]
      refine ⟨?_, atMostOne_update_ne (by norm_num) h2, ?_,
        atMostOne_update_ne (by norm_num) h4⟩
      · intro _
        exact noValIn_update_of_atMostOne hc hg1 (by norm_num) h2
      · intro hg
        exact noValIn_update_ne (by norm_num) (h3 hg)
    · by_cases hg2 : st.grid c = 2
      · simp only [hg1, hg2, if_false, if_true]
        refine ⟨?_, atMostOne_update_ne (by norm_num) h2, ?_,
          atMostOne_update_ne (by norm_num) h4⟩
        · intro hg
          exact noValIn_update_ne (by norm_num) (h1 hg)
        · intro _
          exact noValIn_update_of_atMostOne hc hg2 (by norm_num) h4
      · simp only [hg1, hg2, if_false]
        refine ⟨?_, atMostOne_update_ne (by norm_num) h2, ?_,
          atMostOne_update_ne (by norm_num) h4⟩
        · intro hg
          exact noValIn_update_ne (by norm_num) (h1 hg)
        · intro hg
          exact noValIn_update_ne (by norm_num) (h3 hg)

theorem click_cell_dims (st : EditorState) (m : Mode) (c : Coord) :
    (click_cell st m c).rows = st.rows ∧ (click_cell st m c).cols = st.cols := by
  cases m <;> simp only [click_cell] <;> split_ifs <;> exact ⟨rfl, rfl⟩

theorem applyClicks_inv (cmds : List (Mode × Coord)) (st : EditorState)
    (h : PlacedInv st) (hcmds : ∀ mc ∈ cmds, inBounds st.rows st.cols mc.2) :
    PlacedInv (applyClicks st cmds) := by
  induction cmds generalizing st with
  | nil => exact h
  | cons mc rest ih =>
    have hdims := click_cell_dims st mc.1 mc.2
    refine ih (click_cell st mc.1 mc.2) (click_preserves st mc.1 mc.2 (hcmds mc (by simp)) h) ?_
    intro mc' hmc'
    rw [hdims.1, hdims.2]
    exact hcmds mc' (by simp [hmc'])

/-- Claim C6: starting from any all-free editor grid, after any finite
sequence of in-bounds placement commands the grid holds at most one
Start cell (value 1) and at most one Goal cell (value 2). -/
theorem c6_at_most_one_start_and_goal (r c : ℕ) (cmds : List (Mode × Coord))
    (hcmds : ∀ mc ∈ cmds, inb (gridOf (initEditor r c)) mc.2) :
    atMostOneVal (applyClicks (initEditor r c) cmds).rows
      (applyClicks (initEditor r c) cmds).cols (applyClicks (initEditor r c) cmds).grid 1 ∧
    atMostOneVal (applyClicks (initEditor r c) cmds).rows
      (applyClicks (initEditor r c) cmds).cols (applyClicks (initEditor r c) cmds).grid 2 := by
  have hinit : PlacedInv (initEditor r c) := by
    refine ⟨fun _ p _ => ?_, fun p q _ _ hp _ => ?_, fun _ p _ => ?_, fun p q _ _ hp _ => ?_⟩
    · norm_num [initEditor]
    · norm_num [initEditor] at hp
    · norm_num [initEditor]
    · norm_num [initEditor] at hp
  have := applyClicks_inv cmds (initEditor r c) hinit hcmds
  exact ⟨this.2.1, this.2.2.2⟩

theorem c6_witness :
    (∀ mc ∈ cmds0, inb (gridOf (initEditor 5 5)) mc.2) ∧
    (atMostOneVal (applyClicks (initEditor 5 5) cmds0).rows
      (applyClicks (initEditor 5 5) cmds0).cols (applyClicks (initEditor 5 5) cmds0).grid 1 ∧
     atMostOneVal (applyClicks (initEditor 5 5) cmds0).rows
      (applyClicks (initEditor 5 5) cmds0).cols (applyClicks (initEditor 5 5) cmds0).grid 2) :=
  ⟨by decide, c6_at_most_one_start_and_goal 5 5 cmds0 (by decide)⟩

theorem mem_cellList {st : EditorState} {p : Coord} (h : p ∈ cellList st) :
    inb (gridOf st) p := by
  unfold cellList at h
  rw [List.mem_flatMap] at h
  obtain ⟨i, hi, hp⟩ := h
  rw [List.mem_map] at hp
  obtain ⟨j, hj, hpe⟩ := hp
  rw [List.mem_range] at hi hj
  subst hpe
  refine ⟨Int.natCast_nonneg i, ?_, Int.natCast_nonneg j, ?_⟩
  · show (i : ℤ) < (st.rows : ℤ)
    exact_mod_cast hi
  · show (j : ℤ) < (st.cols : ℤ)
    exact_mod_cast hj

theorem findFirst_eq_none {st : EditorState} {v : ℤ}
    (h : ∀ p, inb (gridOf st) p → st.grid p ≠ v) : findFirst st v = none := by
  unfold findFirst
  rw [List.find?_eq_none]
  intro x hx
  simpa using h x (mem_cellList hx)

/-- Claim C7: when the grid lacks a Start cell or lacks a Goal cell,
triggering either run command performs no search, leaves the whole editor
state (grid included) unchanged, and surfaces the warning instead. -/
theorem c7_run_without_start_or_goal_warns (st : EditorState) (alg : Alg)
    (h : (∀ p, inb (gridOf st) p → st.grid p ≠ 1) ∨ (∀ p, inb (gridOf st) p → st.grid p ≠ 2)) :
    run_algorithm st alg = some (st, true) := by
  unfold run_algorithm
  rcases h with h | h
  · rw [findFirst_eq_none h]
  · rw [findFirst_eq_none h]
    cases findFirst st 1 <;> rfl

theorem c7_witness :
    (∀ p, inb (gridOf (initEditor 5 5)) p → (initEditor 5 5).grid p ≠ 1) ∧
    run_algorithm (initEditor 5 5) Alg.astar = some (initEditor 5 5, true) :=
  ⟨fun p _ => by norm_num [initEditor],
    c7_run_without_start_or_goal_warns (initEditor 5 5) Alg.astar
      (Or.inl (fun p _ => by norm_num [initEditor]))⟩

/-- Claim C8 (counterexample): changing the selected dimensions does not
clear `path_algorithm`: from a 5 by 5 state recording a previous A* run,
selecting 6 by 6 leaves `path_algorithm` set. -/
theorem c8_counterexample_path_algorithm_retained :
    (stC8.rows, stC8.cols) ≠ (6, 6) ∧
    (set_dimensions stC8 6 6).path_algorithm = some Alg.astar ∧
    (set_dimensions stC8 6 6).path_algorithm ≠ none := by
  refine ⟨by decide, ?_, ?_⟩
  · rw [set_dimensions, if_pos (show stC8.rows ≠ 6 ∨ stC8.cols ≠ 6 by decide)]
    rfl
  · rw [set_dimensions, if_pos (show stC8.rows ≠ 6 ∨ stC8.cols ≠ 6 by decide)]
    simp [stC8]

/-- Claim C8 (amended): whenever the selected dimensions differ from the
current shape, the editor reallocates an all-free grid of the new size and
clears both placed flags, but `path_algorithm` keeps its previous value
(it is not cleared to none). -/
theorem c8_dimension_change_resets_grid_and_flags (st : EditorState) (r c : ℕ)
    (h : st.rows ≠ r ∨ st.cols ≠ c) :
    set_dimensions st r c =
      { rows := r, cols := c, grid := fun _ => 0, start_set := false, goal_set := false,
        path_algorithm := st.path_algorithm } := by
  rw [set_dimensions, if_pos h]

theorem c8_witness :
    set_dimensions (initEditor 5 5) 6 6 =
      { rows := 6, cols := 6, grid := fun _ => 0, start_set := false, goal_set := false,
        path_algorithm := (initEditor 5 5).path_algorithm } :=
  c8_dimension_change_resets_grid_and_flags (initEditor 5 5) 6 6 (Or.inl (by norm_num [initEditor]))

/-- Claim C9 (counterexample): erasing cell `(0, 0)` after the
Goal-over-Start overwrite does not re-enable Start placement: the erase
clears `goal_set` (the cell holds Goal), `start_set` stays true, and a
subsequent Start click at `(1, 1)` still places nothing. -/
theorem c9_counterexample_erase_does_not_unblock :
    (click_cell st9 Mode.erase (0, 0)).start_set = true ∧
    (click_cell st9 Mode.erase (0, 0)).goal_set = false ∧
    (click_cell (click_cell st9 Mode.erase (0, 0)) Mode.start (1, 1)).grid (1, 1) = 0 ∧
    (click_cell (click_cell st9 Mode.erase (0, 0)) Mode.start (1, 1)).grid (1, 1) ≠ 1 := by
  refine ⟨by decide, by decide, by decide, by decide⟩

/-- Claim C9 (amended): after placing Start at `(0, 0)` and then clicking
`(0, 0)` in Goal mode (with no goal placed yet), the cell holds Goal, the
grid has no Start cell, yet `start_set` remains true, so every subsequent
Start placement at any cell is a no-op -- and remains one even after cell
`(0, 0)` is erased, since erasing it clears `goal_set`, not
`start_set`. -/
theorem c9_goal_click_overwrites_start :
    st9.grid (0, 0) = 2 ∧
    (∀ p, inb (gridOf st9) p → st9.grid p ≠ 1) ∧
    st9.start_set = true ∧
    (∀ d, click_cell st9 Mode.start d = st9) ∧
    (click_cell st9 Mode.erase (0, 0)).start_set = true ∧
    (∀ d, click_cell (click_cell st9 Mode.erase (0, 0)) Mode.start d =
      click_cell st9 Mode.erase (0, 0)) := by
  refine ⟨by decide, ?_, by decide, ?_, by decide, ?_⟩
  · intro p _
    show (if p = ((0 : ℤ), (0 : ℤ)) then 2 else if p = ((0 : ℤ), (0 : ℤ)) then 1 else 0) ≠ 1
    split_ifs <;> norm_num
  · intro d
    have hss : st9.start_set = true := by decide
    simp [click_cell, hss]
  · intro d
    have hss : (click_cell st9 Mode.erase (0, 0)).start_set = true := by decide
    generalize hE : click_cell st9 Mode.erase (0, 0) = stE at hss ⊢
    simp [click_cell, hss]

theorem lookupA_updA {β : Type} (m : List (Coord × β)) (k k' : Coord) (v : β) :
    lookupA (updA m k v) k' = if k = k' then some v else lookupA m k' := by
  induction m with
  | nil => simp only [updA, lookupA]
  | cons q rest ih =>
    by_cases hq : q.1 = k
    · simp only [updA, if_pos hq, lookupA]
      by_cases h : k = k'
      · rw [if_pos h, if_pos h]
      · rw [if_neg h, if_neg h, if_neg (fun hh : q.1 = k' => h (hq.symm.trans hh))]
    · simp only [updA, if_neg hq, lookupA, ih]
      by_cases hqk : q.1 = k'
      · rw [if_pos hqk, if_neg (fun hh : k = k' => hq (hqk.trans hh.symm)), if_pos hqk]
      · rw [if_neg hqk, if_neg hqk]

theorem lookupA_updA_self {β : Type} (m : List (Coord × β)) (k : Coord) (v : β) :
    lookupA (updA m k v) k = some v := by
  rw [lookupA_updA, if_pos rfl]

theorem lookupA_updA_ne {β : Type} (m : List (Coord × β)) {k k' : Coord} (v : β)
    (h : k ≠ k') : lookupA (updA m k v) k' = lookupA m k' := by
  rw [lookupA_updA, if_neg h]

theorem lookupA_mem {β : Type} {m : List (Coord × β)} {k : Coord} {v : β}
    (h : lookupA m k = some v) : (k, v) ∈ m := by
  induction m with
  | nil => simp [lookupA] at h
  | cons q rest ih =>
    rw [lookupA] at h
    split_ifs at h with hq
    · obtain rfl : q.2 = v := by injection h
      exact List.mem_cons.mpr (Or.inl (by rw [← hq]))
    · exact List.mem_cons_of_mem _ (ih h)

theorem lookupA_eq_none {β : Type} {m : List (Coord × β)} {k : Coord} :
    lookupA m k = none ↔ k ∉ m.map Prod.fst := by
  induction m with
  | nil => simp [lookupA]
  | cons q rest ih =>
    rw [lookupA]
    split_ifs with hq
    · simp [hq]
    · simp only [List.map_cons, List.mem_cons, ih]
      constructor
      · intro hnone hmem
        rcases hmem with h1 | h2
        · exact hq h1.symm
        · exact hnone h2
      · intro hk
        exact fun h2 => hk (Or.inr h2)

theorem mem_map_fst_of_lookupA {β : Type} {m : List (Coord × β)} {k : Coord}
    (h : (lookupA m k).isSome) : k ∈ m.map Prod.fst := by
  by_contra hk
  rw [← lookupA_eq_none] at hk
  rw [hk] at h
  simp at h

theorem lookupA_isSome_of_mem {β : Type} {m : List (Coord × β)} {q : Coord × β}
    (h : q ∈ m) : (lookupA m q.1).isSome := by
  induction m with
  | nil => simp at h
  | cons x rest ih =>
    rcases List.mem_cons.mp h with rfl | h2
    · rw [lookupA, if_pos rfl]
      simp
    · rw [lookupA]
      split_ifs <;> simp [ih h2]

theorem mem_lookupA_nodup {β : Type} {m : List (Coord × β)} {k : Coord} {v : β}
    (hnd : (m.map Prod.fst).Nodup) (h : (k, v) ∈ m) : lookupA m k = some v := by
  induction m with
  | nil => simp at h
  | cons q rest ih =>
    rw [List.map_cons, List.nodup_cons] at hnd
    rcases List.mem_cons.mp h with rfl | h2
    · rw [lookupA, if_pos rfl]
    · rw [lookupA]
      split_ifs with hq
      · exfalso
        exact hnd.1 (hq ▸ (List.mem_map_of_mem Prod.fst h2))
      · exact ih hnd.2 h2

theorem map_fst_updA_some {β : Type} {m : List (Coord × β)} {k : Coord} (v : β)
    (h : (lookupA m k).isSome) : (updA m k v).map Prod.fst = m.map Prod.fst := by
  induction m with
  | nil => simp [lookupA] at h
  | cons q rest ih =>
    rw [lookupA] at h
    by_cases hq : q.1 = k
    · rw [updA, if_pos hq]
      simp [hq]
    · rw [if_neg hq] at h
      rw [updA, if_neg hq]
      simp [ih h]

theorem map_fst_updA_none {β : Type} {m : List (Coord × β)} {k : Coord} (v : β)
    (h : lookupA m k = none) : (updA m k v).map Prod.fst = m.map Prod.fst ++ [k] := by
  induction m with
  | nil => simp [updA]
  | cons q rest ih =>
    rw [lookupA] at h
    split_ifs at h with hq
    rw [updA, if_neg hq]
    simp [ih h]

theorem length_updA_some {β : Type} {m : List (Coord × β)} {k : Coord} (v : β)
    (h : (lookupA m k).isSome) : (updA m k v).length = m.length := by
  have h1 : ((updA m k v).map Prod.fst).length = (m.map Prod.fst).length := by
    rw [map_fst_updA_some v h]
  simpa using h1

theorem length_updA_none {β : Type} {m : List (Coord × β)} {k : Coord} (v : β)
    (h : lookupA m k = none) : (updA m k v).length = m.length + 1 := by
  have h1 : ((updA m k v).map Prod.fst).length = (m.map Prod.fst).length + 1 := by
    rw [map_fst_updA_none v h]
    simp
  simpa using h1

theorem mem_updA_nodup {β : Type} {m : List (Coord × β)} {k : Coord} {v : β} {q : Coord × β}
    (hnd : (m.map Prod.fst).Nodup) :
    q ∈ updA m k v ↔ q = (k, v) ∨ (q ∈ m ∧ q.1 ≠ k) := by
  induction m with
  | nil => simp [updA]
  | cons x rest ih =>
    rw [List.map_cons, List.nodup_cons] at hnd
    by_cases hx : x.1 = k
    · simp only [updA, if_pos hx, List.mem_cons]
      constructor
      · rintro (rfl | h2)
        · exact Or.inl rfl
        · refine Or.inr ⟨Or.inr h2, fun hqk => ?_⟩
          exact hnd.1 (hx ▸ hqk ▸ (List.mem_map_of_mem Prod.fst h2))
      · rintro (rfl | ⟨(rfl | h2), hqk⟩)
        · exact Or.inl rfl
        · exact absurd hx hqk
        · exact Or.inr h2
    · simp only [updA, if_neg hx, List.mem_cons, ih hnd.2]
      constructor
      · rintro (rfl | (rfl | ⟨h2, h3⟩))
        · exact Or.inr ⟨Or.inl rfl, fun hqk => hx hqk⟩
        · exact Or.inl rfl
        · exact Or.inr ⟨Or.inr h2, h3⟩
      · rintro (rfl | ⟨(rfl | h2), hqk⟩)
        · exact Or.inr (Or.inl rfl)
        · exact Or.inl rfl
        · exact Or.inr (Or.inr ⟨h2, hqk⟩)

theorem mem_updA_weak {β : Type} {m : List (Coord × β)} {k : Coord} {v : β} {q : Coord × β}
    (h : q ∈ updA m k v) : q = (k, v) ∨ q ∈ m := by
  induction m with
  | nil => simpa [updA] using h
  | cons x rest ih =>
    by_cases hx : x.1 = k
    · rw [updA, if_pos hx] at h
      rcases List.mem_cons.mp h with rfl | h2
      · exact Or.inl rfl
      · exact Or.inr (List.mem_cons_of_mem _ h2)
    · rw [updA, if_neg hx] at h
      rcases List.mem_cons.mp h with rfl | h2
      · exact Or.inr (List.mem_cons_self _ _)
      · rcases ih h2 with h3 | h3
        · exact Or.inl h3
        · exact Or.inr (List.mem_cons_of_mem _ h3)

theorem sumPlus_updA_some {m : List (Coord × ℕ)} {k : Coord} {w : ℕ} (v : ℕ)
    (h : lookupA m k = some w) : sumPlus (updA m k v) + (w + 1) = sumPlus m + (v + 1) := by
  induction m with
  | nil => simp [lookupA] at h
  | cons q rest ih =>
    rw [lookupA] at h
    split_ifs at h with hq
    · obtain rfl : q.2 = w := by injection h
      simp only [updA, if_pos hq, sumPlus, List.map_cons, List.sum_cons]
      ring
    · simp only [updA, if_neg hq, sumPlus, List.map_cons, List.sum_cons]
      have h2 := ih h
      simp only [sumPlus] at h2
      omega

theorem sumPlus_updA_none {m : List (Coord × ℕ)} {k : Coord} (v : ℕ)
    (h : lookupA m k = none) : sumPlus (updA m k v) = sumPlus m + (v + 1) := by
  induction m with
  | nil => simp [updA, sumPlus]
  | cons q rest ih =>
    rw [lookupA] at h
    split_ifs at h with hq
    rw [updA, if_neg hq]
    simp only [sumPlus, List.map_cons, List.sum_cons]
    have h2 := ih h
    simp only [sumPlus] at h2
    omega

theorem popMinBy_mem {α : Type} {le : α → α → Bool} {l : List α} {e : α} {rest : List α}
    (h : popMinBy le l = some (e, rest)) : e ∈ l := by
  induction l generalizing e rest with
  | nil => simp [popMinBy] at h
  | cons x xs ih =>
    cases hx : popMinBy le xs with
    | none =>
      rw [popMinBy, hx] at h
      simp only [Option.some.injEq, Prod.mk.injEq] at h
      simp [← h.1]
    | some p =>
      obtain ⟨m, r⟩ := p
      rw [popMinBy, hx] at h
      dsimp only at h
      split_ifs at h <;> simp only [Option.some.injEq, Prod.mk.injEq] at h
      · simp [← h.1]
      · exact List.mem_cons_of_mem _ (h.1 ▸ ih hx)

theorem popMinBy_subset {α : Type} {le : α → α → Bool} {l : List α} {e : α} {rest : List α}
    (h : popMinBy le l = some (e, rest)) : ∀ x ∈ rest, x ∈ l := by
  induction l generalizing e rest with
  | nil => simp [popMinBy] at h
  | cons x xs ih =>
    cases hx : popMinBy le xs with
    | none =>
      rw [popMinBy, hx] at h
      simp only [Option.some.injEq, Prod.mk.injEq] at h
      simp [← h.2]
    | some p =>
      obtain ⟨m, r⟩ := p
      rw [popMinBy, hx] at h
      dsimp only at h
      split_ifs at h <;> simp only [Option.some.injEq, Prod.mk.injEq] at h
      · intro y hy
        exact List.mem_cons_of_mem _ (h.2 ▸ hy)
      · intro y hy
        rw [← h.2] at hy
        rcases List.mem_cons.mp hy with rfl | hy2
        · exact List.mem_cons_self _ _
        · exact List.mem_cons_of_mem _ (ih hx y hy2)

theorem popMinBy_rest_mem {α : Type} {le : α → α → Bool} {l : List α} {e : α} {rest : List α}
    (h : popMinBy le l = some (e, rest)) : ∀ x ∈ l, x ≠ e → x ∈ rest := by
  induction l generalizing e rest with
  | nil => simp [popMinBy] at h
  | cons x xs ih =>
    cases hx : popMinBy le xs with
    | none =>
      obtain rfl : xs = [] := popMinBy_none hx
      rw [popMinBy, hx] at h
      simp only [Option.some.injEq, Prod.mk.injEq] at h
      intro y hy hne
      rcases List.mem_cons.mp hy with rfl | hy2
      · exact absurd h.1 hne
      · simp at hy2
    | some p =>
      obtain ⟨m, r⟩ := p
      rw [popMinBy, hx] at h
      dsimp only at h
      split_ifs at h <;> simp only [Option.some.injEq, Prod.mk.injEq] at h
      · intro y hy hne
        rw [← h.2]
        rcases List.mem_cons.mp hy with rfl | hy2
        · exact absurd h.1 hne
        · exact hy2
      · intro y hy hne
        rw [← h.2]
        rcases List.mem_cons.mp hy with rfl | hy2
        · exact List.mem_cons_self _ _
        · exact List.mem_cons_of_mem _ (ih hx y hy2 (fun hh => hne (hh.trans h.1)))

theorem entryLe_total (a b : ℕ × ℕ × Coord) : entryLe a b = true ∨ entryLe b a = true := by
  simp only [entryLe, coordLe, Bool.or_eq_true, Bool.and_eq_true, decide_eq_true_eq]
  omega

theorem entryLe_trans {a b c : ℕ × ℕ × Coord} (h1 : entryLe a b = true)
    (h2 : entryLe b c = true) : entryLe a c = true := by
  simp only [entryLe, coordLe, Bool.or_eq_true, Bool.and_eq_true, decide_eq_true_eq] at h1 h2 ⊢
  omega

theorem entryLe_fst {a b : ℕ × ℕ × Coord} (h : entryLe a b = true) : a.1 ≤ b.1 := by
  simp only [entryLe, coordLe, Bool.or_eq_true, Bool.and_eq_true, decide_eq_true_eq] at h
  omega

theorem popMinBy_min {l : List (ℕ × ℕ × Coord)} {e : ℕ × ℕ × Coord}
    {rest : List (ℕ × ℕ × Coord)} (h : popMinBy entryLe l = some (e, rest)) :
    ∀ x ∈ l, entryLe e x = true := by
  induction l generalizing e rest with
  | nil => simp [popMinBy] at h
  | cons x xs ih =>
    cases hx : popMinBy entryLe xs with
    | none =>
      obtain rfl : xs = [] := popMinBy_none hx
      rw [popMinBy, hx] at h
      dsimp only at h
      simp only [Option.some.injEq, Prod.mk.injEq] at h
      intro y hy
      rcases List.mem_cons.mp hy with rfl | hy2
      · rw [← h.1]
        rcases entryLe_total y y with h1 | h1 <;> exact h1
      · simp at hy2
    | some p =>
      obtain ⟨m, r⟩ := p
      rw [popMinBy, hx] at h
      dsimp only at h
      split_ifs at h with hle <;> simp only [Option.some.injEq, Prod.mk.injEq] at h
      · intro y hy
        rcases List.mem_cons.mp hy with rfl | hy2
        · rw [← h.1]
          rcases entryLe_total y y with h1 | h1 <;> exact h1
        · rw [← h.1]
          exact entryLe_trans hle (ih hx y hy2)
      · intro y hy
        rcases List.mem_cons.mp hy with rfl | hy2
        · rw [← h.1]
          rcases entryLe_total y m with h1 | h1
          · exact absurd h1 hle
          · exact h1
        · rw [← h.1]
          exact ih hx y hy2

theorem heuristic_self (a : Coord) : heuristic a a = 0 := by
  simp [heuristic]

theorem heuristic_comm (a b : Coord) : heuristic a b = heuristic b a := by
  simp only [heuristic]
  omega

theorem heuristic_eq_zero {a b : Coord} : heuristic a b = 0 ↔ a = b := by
  simp only [heuristic]
  constructor
  · intro h
    have h1 : a.1 = b.1 := by omega
    have h2 : a.2 = b.2 := by omega
    exact Prod.ext h1 h2
  · rintro rfl
    omega

theorem heuristic_triangle (a b c : Coord) : heuristic a c ≤ heuristic a b + heuristic b c := by
  simp only [heuristic]
  omega

theorem mem_get_neighbors {grid : Grid} {pos n : Coord} :
    n ∈ get_neighbors pos grid ↔
      ((n = (pos.1 - 1, pos.2) ∨ n = (pos.1 + 1, pos.2) ∨ n = (pos.1, pos.2 - 1) ∨
        n = (pos.1, pos.2 + 1)) ∧ inb grid n ∧ grid.val n ≠ -1) := by
  have e1 : ((pos.1 + (-1 : ℤ), pos.2 + (0 : ℤ)) : Coord) = (pos.1 - 1, pos.2) :=
    Prod.ext_iff.mpr ⟨by ring, by ring⟩
  have e2 : ((pos.1 + (1 : ℤ), pos.2 + (0 : ℤ)) : Coord) = (pos.1 + 1, pos.2) :=
    Prod.ext_iff.mpr ⟨by ring, by ring⟩
  have e3 : ((pos.1 + (0 : ℤ), pos.2 + (-1 : ℤ)) : Coord) = (pos.1, pos.2 - 1) :=
    Prod.ext_iff.mpr ⟨by ring, by ring⟩
  have e4 : ((pos.1 + (0 : ℤ), pos.2 + (1 : ℤ)) : Coord) = (pos.1, pos.2 + 1) :=
    Prod.ext_iff.mpr ⟨by ring, by ring⟩
  constructor
  · intro h
    simp only [get_neighbors, List.mem_filterMap] at h
    obtain ⟨d, hd, hn⟩ := h
    fin_cases hd <;> dsimp only at hn <;> split_ifs at hn with hc <;>
      simp only [Option.some.injEq] at hn <;> subst hn
    · exact ⟨Or.inl e1, hc⟩
    · exact ⟨Or.inr (Or.inl e2), hc⟩
    · exact ⟨Or.inr (Or.inr (Or.inl e3)), hc⟩
    · exact ⟨Or.inr (Or.inr (Or.inr e4)), hc⟩
  · rintro ⟨hd, hinb, hval⟩
    simp only [get_neighbors, List.mem_filterMap]
    rcases hd with rfl | rfl | rfl | rfl
    · refine ⟨(-1, 0), by simp [dirs], ?_⟩
      dsimp only
      rw [e1, if_pos ⟨hinb, hval⟩]
    · refine ⟨(1, 0), by simp [dirs], ?_⟩
      dsimp only
      rw [e2, if_pos ⟨hinb, hval⟩]
    · refine ⟨(0, -1), by simp [dirs], ?_⟩
      dsimp only
      rw [e3, if_pos ⟨hinb, hval⟩]
    · refine ⟨(0, 1), by simp [dirs], ?_⟩
      dsimp only
      rw [e4, if_pos ⟨hinb, hval⟩]

theorem inb_of_mem_get_neighbors {grid : Grid} {pos n : Coord}
    (h : n ∈ get_neighbors pos grid) : inb grid n :=
  (mem_get_neighbors.mp h).2.1

theorem get_neighbors_ne {grid : Grid} {pos n : Coord}
    (h : n ∈ get_neighbors pos grid) : n ≠ pos := by
  rcases (mem_get_neighbors.mp h).1 with rfl | rfl | rfl | rfl <;>
    intro he <;> rw [Prod.ext_iff] at he <;> omega

theorem heuristic_adj {grid : Grid} {pos n : Coord}
    (h : n ∈ get_neighbors pos grid) : heuristic pos n = 1 := by
  rcases (mem_get_neighbors.mp h).1 with rfl | rfl | rfl | rfl <;> (simp only [heuristic]; omega)

theorem move_cost_free {grid : Grid} {c : Coord} (hfree : FreeGrid grid) (hc : inb grid c) :
    move_cost grid c = 1 := by
  rw [move_cost, if_neg (hfree c hc).2]

theorem move_cost_pos (grid : Grid) (c : Coord) : 1 ≤ move_cost grid c := by
  rw [move_cost]
  split_ifs <;> omega

theorem move_cost_le (grid : Grid) (c : Coord) : move_cost grid c ≤ 5 := by
  rw [move_cost]
  split_ifs <;> omega

theorem exists_step_toward (grid : Grid) (hfree : FreeGrid grid) {c goal : Coord}
    (hc : inb grid c) (hg : inb grid goal) (hne : c ≠ goal) :
    ∃ n ∈ get_neighbors c grid, heuristic n goal + 1 = heuristic c goal := by
  obtain ⟨hc1, hc2, hc3, hc4⟩ := hc
  obtain ⟨hg1, hg2, hg3, hg4⟩ := hg
  by_cases h1 : c.1 = goal.1
  · have h2 : c.2 ≠ goal.2 := by
      intro h2
      exact hne (Prod.ext h1 h2)
    by_cases hlt : c.2 < goal.2
    · have hinb : inb grid (c.1, c.2 + 1) := ⟨hc1, hc2, by omega, by omega⟩
      refine ⟨(c.1, c.2 + 1), mem_get_neighbors.mpr
        ⟨Or.inr (Or.inr (Or.inr rfl)), hinb, (hfree _ hinb).1⟩, ?_⟩
      simp only [heuristic]
      omega
    · have hinb : inb grid (c.1, c.2 - 1) := ⟨hc1, hc2, by omega, by omega⟩
      refine ⟨(c.1, c.2 - 1), mem_get_neighbors.mpr
        ⟨Or.inr (Or.inr (Or.inl rfl)), hinb, (hfree _ hinb).1⟩, ?_⟩
      simp only [heuristic]
      omega
  · by_cases hlt : c.1 < goal.1
    · have hinb : inb grid (c.1 + 1, c.2) := ⟨by omega, by omega, hc3, hc4⟩
      refine ⟨(c.1 + 1, c.2), mem_get_neighbors.mpr
        ⟨Or.inr (Or.inl rfl), hinb, (hfree _ hinb).1⟩, ?_⟩
      simp only [heuristic]
      omega
    · have hinb : inb grid (c.1 - 1, c.2) := ⟨by omega, by omega, hc3, hc4⟩
      refine ⟨(c.1 - 1, c.2), mem_get_neighbors.mpr
        ⟨Or.inl rfl, hinb, (hfree _ hinb).1⟩, ?_⟩
      simp only [heuristic]
      omega

theorem keys_length_le (grid : Grid) (start : Coord) {keys : List Coord}
    (hnd : keys.Nodup) (hsub : ∀ k ∈ keys, k = start ∨ inb grid k) :
    keys.length ≤ grid.rows * grid.cols + 1 := by
  classical
  have hsub2 : keys.toFinset ⊆ insert start
      (((Finset.range grid.rows) ×ˢ (Finset.range grid.cols)).image
        (fun p => (((p.1 : ℕ) : ℤ), ((p.2 : ℕ) : ℤ)))) := by
    intro k hk
    rw [List.mem_toFinset] at hk
    rcases hsub k hk with rfl | hinb
    · exact Finset.mem_insert_self _ _
    · refine Finset.mem_insert_of_mem ?_
      rw [Finset.mem_image]
      refine ⟨(k.1.toNat, k.2.toNat), ?_, ?_⟩
      · rw [Finset.mem_product, Finset.mem_range, Finset.mem_range]
        obtain ⟨h1, h2, h3, h4⟩ := hinb
        constructor <;> omega
      · obtain ⟨h1, h2, h3, h4⟩ := hinb
        refine Prod.ext_iff.mpr ⟨?_, ?_⟩ <;> simp <;> omega
  have hcard : keys.toFinset.card ≤ grid.rows * grid.cols + 1 := by
    calc keys.toFinset.card
        ≤ _ := Finset.card_le_card hsub2
      _ ≤ _ + 1 := Finset.card_insert_le _ _
      _ ≤ grid.rows * grid.cols + 1 := by
          have himg : (((Finset.range grid.rows) ×ˢ (Finset.range grid.cols)).image
              (fun p => (((p.1 : ℕ) : ℤ), ((p.2 : ℕ) : ℤ)))).card ≤
              ((Finset.range grid.rows) ×ˢ (Finset.range grid.cols)).card :=
            Finset.card_image_le
          simp only [Finset.card_product, Finset.card_range] at himg
          omega
  rwa [List.toFinset_card_of_nodup hnd] at hcard

theorem relaxNbr_noop {grid : Grid} {goal current : Coord} {st : AState} {n : Coord}
    {gcur gn : ℕ} (hcur : lookupA st.g_score current = some gcur)
    (hgn : lookupA st.g_score n = some gn) (hge : ¬ gcur + move_cost grid n < gn) :
    relaxNbr grid goal current st n = some st := by
  simp only [relaxNbr, hcur, hgn]
  rw [if_neg]
  simp [hge]

theorem relaxNbr_fresh {grid : Grid} {goal current : Coord} {st : AState} {n : Coord}
    {gcur : ℕ} (hcur : lookupA st.g_score current = some gcur)
    (hgn : lookupA st.g_score n = none) :
    relaxNbr grid goal current st n = some (pushState grid goal current st n gcur) := by
  simp only [relaxNbr, hcur, hgn, if_true, pushState]

theorem relaxNbr_improve {grid : Grid} {goal current : Coord} {st : AState} {n : Coord}
    {gcur gn : ℕ} (hcur : lookupA st.g_score current = some gcur)
    (hgn : lookupA st.g_score n = some gn) (hlt : gcur + move_cost grid n < gn) :
    relaxNbr grid goal current st n = some (pushState grid goal current st n gcur) := by
  simp only [relaxNbr, hcur, hgn, pushState]
  rw [if_pos]
  simp [hlt]

theorem relaxNbr_isSome {grid : Grid} {goal current : Coord} {st : AState} {gcur : ℕ}
    (n : Coord) (hcur : lookupA st.g_score current = some gcur) :
    ∃ st', relaxNbr grid goal current st n = some st' := by
  cases hgn : lookupA st.g_score n with
  | none => exact ⟨_, relaxNbr_fresh hcur hgn⟩
  | some gn =>
    by_cases hlt : gcur + move_cost grid n < gn
    · exact ⟨_, relaxNbr_improve hcur hgn hlt⟩
    · exact ⟨_, relaxNbr_noop hcur hgn hlt⟩

theorem relaxSpec_noop {grid : Grid} {start goal : Coord} {st : AState} {current n : Coord}
    {gcur gn : ℕ} (hinv : AInvCore grid start goal st)
    (hcur : lookupA st.g_score current = some gcur)
    (hgn : lookupA st.g_score n = some gn) (hge : ¬ gcur + move_cost grid n < gn) :
    RelaxSpec grid start goal st st current n gcur := by
  refine ⟨hinv, hcur, fun x v hv => ⟨v, le_refl v, hv⟩, fun e he => he,
    ⟨gn, by omega, hgn⟩, fun x => Or.inr rfl, le_refl _, le_refl _, fun _ hb => hb⟩

theorem relaxSpec_fresh {grid : Grid} {start goal : Coord} {st : AState} {current n : Coord}
    {gcur : ℕ} (hinv : AInvCore grid start goal st)
    (hcur : lookupA st.g_score current = some gcur)
    (hn : n ∈ get_neighbors current grid)
    (hgn : lookupA st.g_score n = none) :
    RelaxSpec grid start goal st (pushState grid goal current st n gcur) current n gcur := by
  have hnc : n ≠ current := get_neighbors_ne hn
  have hns : n ≠ start := by
    rintro rfl
    rw [hinv.g_start] at hgn
    exact Option.noConfusion hgn
  have hcame_none : lookupA st.came_from n = none := by
    have h1 := hinv.keys_iff n
    rw [hgn] at h1
    simp only [Option.isSome_none, Bool.false_eq_true, false_iff, not_or] at h1
    exact Option.not_isSome_iff_eq_none.mp h1.2
  have hkeyn : n ∉ st.g_score.map Prod.fst := lookupA_eq_none.mp hgn
  have hckeyn : n ∉ st.came_from.map Prod.fst := lookupA_eq_none.mp hcame_none
  set tent := gcur + move_cost grid n with htent
  have hlookup_self : lookupA (updA st.g_score n tent) n = some tent := lookupA_updA_self _ _ _
  have hlookup_ne : ∀ x, x ≠ n → lookupA (updA st.g_score n tent) x = lookupA st.g_score x :=
    fun x hx => lookupA_updA_ne _ _ (fun hh => hx hh.symm)
  have hgkeys : (updA st.g_score n tent).map Prod.fst = st.g_score.map Prod.fst ++ [n] :=
    map_fst_updA_none _ hgn
  have hckeys : (updA st.came_from n current).map Prod.fst = st.came_from.map Prod.fst ++ [n] :=
    map_fst_updA_none _ hcame_none
  have hglen : (updA st.g_score n tent).length = st.g_score.length + 1 :=
    length_updA_none _ hgn
  have hclen : (updA st.came_from n current).length = st.came_from.length + 1 :=
    length_updA_none _ hcame_none
  have hcore : AInvCore grid start goal (pushState grid goal current st n gcur) := by
    refine ⟨?_, ?_, ?_, ?_, ?_, ?_, ?_, ?_, ?_⟩
    · rw [pushState]
      dsimp only
      rw [hgkeys]
      simp only [List.nodup_append, List.nodup_cons, List.not_mem_nil, not_false_iff,
        List.nodup_nil, and_true, true_and]
      exact ⟨hinv.g_nodup, fun a ha hb => by simp at hb; exact hkeyn (hb ▸ ha)⟩
    · rw [pushState]
      dsimp only
      rw [hckeys]
      simp only [List.nodup_append, List.nodup_cons, List.not_mem_nil, not_false_iff,
        List.nodup_nil, and_true, true_and]
      exact ⟨hinv.c_nodup, fun a ha hb => by simp at hb; exact hckeyn (hb ▸ ha)⟩
    · rw [pushState]
      dsimp only
      rw [hgkeys]
      intro k hk
      rcases List.mem_append.mp hk with hk1 | hk2
      · exact hinv.g_sub k hk1
      · simp only [List.mem_singleton] at hk2
        exact Or.inr (hk2 ▸ inb_of_mem_get_neighbors hn)
    · rw [pushState]
      dsimp only
      rw [hlookup_ne start (fun hh => hns hh.symm)]
      exact hinv.g_start
    · rw [pushState]
      intro e he
      dsimp only at he ⊢
      rcases List.mem_cons.mp he with rfl | he2
      · exact ⟨tent, hlookup_self, le_refl _, rfl⟩
      · obtain ⟨v, hv1, hv2, hv3⟩ := hinv.open_inv e he2
        have hx : e.2.2 ≠ n := by
          rintro rfl
          rw [hgn] at hv1
          exact Option.noConfusion hv1
        exact ⟨v, (hlookup_ne _ hx) ▸ hv1, hv2, hv3⟩
    · rw [pushState]
      intro q hq
      dsimp only at hq ⊢
      rcases mem_updA_weak hq with rfl | hq2
      · refine ⟨tent, gcur, hlookup_self, ?_, le_refl _, hn, hns⟩
        rw [hlookup_ne current (Ne.symm hnc)]
        exact hcur
      · obtain ⟨vc, vp, hvc, hvp, hle, hmem, hqs⟩ := hinv.came_inv q hq2
        have hq1n : q.1 ≠ n := by
          rintro hq1
          rw [← hq1, hvc] at hgn
          exact Option.noConfusion hgn
        have hq2n : q.2 ≠ n := by
          rintro hq2n
          rw [← hq2n, hvp] at hgn
          exact Option.noConfusion hgn
        exact ⟨vc, vp, (hlookup_ne _ hq1n) ▸ hvc, (hlookup_ne _ hq2n) ▸ hvp, hle, hmem, hqs⟩
    · intro k
      rw [pushState]
      dsimp only
      by_cases hk : k = n
      · subst hk
        rw [hlookup_self, lookupA_updA_self]
        simp
      · rw [hlookup_ne k hk, lookupA_updA_ne _ _ (fun hh => hk hh.symm)]
        exact hinv.keys_iff k
    · rw [pushState]
      dsimp only
      rw [hglen, hclen, ← hinv.len_rel]
    · rw [pushState]
      intro q hq
      dsimp only at hq ⊢
      rw [hclen]
      rcases mem_updA_weak hq with rfl | hq2
      · dsimp only
        have h1 := hinv.val_bound (current, gcur) (lookupA_mem hcur)
        have h2 := move_cost_le grid n
        omega
      · have h1 := hinv.val_bound q hq2
        omega
  refine ⟨hcore, ?_, ?_, ?_, ?_, ?_, ?_, ?_, ?_⟩
  · rw [pushState]
    dsimp only
    rw [hlookup_ne current (Ne.symm hnc)]
    exact hcur
  · intro x v hv
    rw [pushState]
    dsimp only
    have hx : x ≠ n := by
      rintro rfl
      rw [hgn] at hv
      exact Option.noConfusion hv
    exact ⟨v, le_refl v, (hlookup_ne x hx) ▸ hv⟩
  · intro e he
    rw [pushState]
    exact List.mem_cons_of_mem _ he
  · exact ⟨tent, le_refl _, hlookup_self⟩
  · intro x
    by_cases hx : x = n
    · subst hx
      exact Or.inl ⟨tent, hlookup_self, List.mem_cons_self _ _⟩
    · exact Or.inr (hlookup_ne x hx)
  · have hg2 : (pushState grid goal current st n gcur).g_score = updA st.g_score n tent := rfl
    have hopen : (pushState grid goal current st n gcur).open_set.length =
        st.open_set.length + 1 := rfl
    have hb1 : ((pushState grid goal current st n gcur).g_score.map Prod.fst).length ≤
        grid.rows * grid.cols + 1 := by
      have := keys_length_le grid start hcore.g_nodup hcore.g_sub
      simpa using this
    rw [List.length_map, hg2, hglen] at hb1
    have hlen : st.g_score.length ≤ grid.rows * grid.cols := by omega
    have htb : tent ≤ 5 * (grid.rows * grid.cols) := by
      have h1 := hinv.val_bound (current, gcur) (lookupA_mem hcur)
      have h2 := move_cost_le grid n
      have h3 := hinv.len_rel
      dsimp only at h1
      omega
    have hsum : sumPlus (updA st.g_score n tent) = sumPlus st.g_score + (tent + 1) :=
      sumPlus_updA_none _ hgn
    rw [Phi, Phi, hg2, hopen, hsum, hglen]
    have h3 : grid.rows * grid.cols + 1 - st.g_score.length =
        (grid.rows * grid.cols + 1 - (st.g_score.length + 1)) + 1 := by omega
    rw [h3, add_mul, one_mul]
    generalize (grid.rows * grid.cols + 1 - (st.g_score.length + 1)) *
      (5 * (grid.rows * grid.cols + 1) + 2) = P
    omega
  · rw [pushState]
    dsimp only
    omega
  · intro hfree hb
    rw [pushState]
    intro q hq
    dsimp only at hq ⊢
    rw [hclen]
    rcases mem_updA_weak hq with rfl | hq2
    · dsimp only
      have h1 := hb (current, gcur) (lookupA_mem hcur)
      have h2 := move_cost_free hfree (inb_of_mem_get_neighbors hn)
      omega
    · have h1 := hb q hq2
      omega

theorem relaxSpec_improve {grid : Grid} {start goal : Coord} {st : AState} {current n : Coord}
    {gcur gn : ℕ} (hinv : AInvCore grid start goal st)
    (hcur : lookupA st.g_score current = some gcur)
    (hn : n ∈ get_neighbors current grid)
    (hgn : lookupA st.g_score n = some gn)
    (hlt : gcur + move_cost grid n < gn) :
    RelaxSpec grid start goal st (pushState grid goal current st n gcur) current n gcur := by
  have hnc : n ≠ current := get_neighbors_ne hn
  have hns : n ≠ start := by
    rintro rfl
    rw [hinv.g_start] at hgn
    obtain rfl : (0 : ℕ) = gn := by injection hgn
    omega
  have hcame_some : (lookupA st.came_from n).isSome := by
    have h1 := (hinv.keys_iff n).mp (by rw [hgn]; rfl)
    rcases h1 with h1 | h1
    · exact absurd h1 hns
    · exact h1
  set tent := gcur + move_cost grid n with htent
  have hlookup_self : lookupA (updA st.g_score n tent) n = some tent := lookupA_updA_self _ _ _
  have hlookup_ne : ∀ x, x ≠ n → lookupA (updA st.g_score n tent) x = lookupA st.g_score x :=
    fun x hx => lookupA_updA_ne _ _ (fun hh => hx hh.symm)
  have hclookup_ne : ∀ x, x ≠ n →
      lookupA (updA st.came_from n current) x = lookupA st.came_from x :=
    fun x hx => lookupA_updA_ne _ _ (fun hh => hx hh.symm)
  have hgkeys : (updA st.g_score n tent).map Prod.fst = st.g_score.map Prod.fst :=
    map_fst_updA_some _ (by rw [hgn]; rfl)
  have hckeys : (updA st.came_from n current).map Prod.fst = st.came_from.map Prod.fst :=
    map_fst_updA_some _ hcame_some
  have hglen : (updA st.g_score n tent).length = st.g_score.length :=
    length_updA_some _ (by rw [hgn]; rfl)
  have hclen : (updA st.came_from n current).length = st.came_from.length :=
    length_updA_some _ hcame_some
  have hcore : AInvCore grid start goal (pushState grid goal current st n gcur) := by
    refine ⟨?_, ?_, ?_, ?_, ?_, ?_, ?_, ?_, ?_⟩
    · rw [pushState]
      dsimp only
      rw [hgkeys]
      exact hinv.g_nodup
    · rw [pushState]
      dsimp only
      rw [hckeys]
      exact hinv.c_nodup
    · rw [pushState]
      dsimp only
      rw [hgkeys]
      exact hinv.g_sub
    · rw [pushState]
      dsimp only
      rw [hlookup_ne start (fun hh => hns hh.symm)]
      exact hinv.g_start
    · rw [pushState]
      intro e he
      dsimp only at he ⊢
      rcases List.mem_cons.mp he with rfl | he2
      · exact ⟨tent, hlookup_self, le_refl _, rfl⟩
      · obtain ⟨v, hv1, hv2, hv3⟩ := hinv.open_inv e he2
        by_cases hx : e.2.2 = n
        · rw [hx] at hv1
          rw [hgn] at hv1
          obtain rfl : gn = v := by injection hv1
          refine ⟨tent, by rw [hx]; exact hlookup_self, by omega, hv3⟩
        · exact ⟨v, (hlookup_ne _ hx) ▸ hv1, hv2, hv3⟩
    · rw [pushState]
      intro q hq
      dsimp only at hq ⊢
      rcases (mem_updA_nodup hinv.c_nodup).mp hq with rfl | ⟨hq2, hq1n⟩
      · refine ⟨tent, gcur, hlookup_self, ?_, le_refl _, hn, hns⟩
        rw [hlookup_ne current (Ne.symm hnc)]
        exact hcur
      · obtain ⟨vc, vp, hvc, hvp, hle, hmem, hqs⟩ := hinv.came_inv q hq2
        by_cases hq2n : q.2 = n
        · rw [hq2n, hgn] at hvp
          obtain rfl : gn = vp := by injection hvp
          refine ⟨vc, tent, (hlookup_ne _ hq1n) ▸ hvc, by rw [hq2n]; exact hlookup_self,
            by omega, hmem, hqs⟩
        · exact ⟨vc, vp, (hlookup_ne _ hq1n) ▸ hvc, (hlookup_ne _ hq2n) ▸ hvp, hle, hmem, hqs⟩
    · intro k
      rw [pushState]
      dsimp only
      by_cases hk : k = n
      · subst hk
        rw [hlookup_self, lookupA_updA_self]
        simp
      · rw [hlookup_ne k hk, hclookup_ne k hk]
        exact hinv.keys_iff k
    · rw [pushState]
      dsimp only
      rw [hglen, hclen]
      exact hinv.len_rel
    · rw [pushState]
      intro q hq
      dsimp only at hq ⊢
      rw [hclen]
      rcases (mem_updA_nodup hinv.g_nodup).mp hq with rfl | ⟨hq2, _⟩
      · dsimp only
        have h1 := hinv.val_bound (n, gn) (lookupA_mem hgn)
        omega
      · exact hinv.val_bound q hq2
  refine ⟨hcore, ?_, ?_, ?_, ?_, ?_, ?_, ?_, ?_⟩
  · rw [pushState]
    dsimp only
    rw [hlookup_ne current (Ne.symm hnc)]
    exact hcur
  · intro x v hv
    rw [pushState]
    dsimp only
    by_cases hx : x = n
    · subst hx
      rw [hgn] at hv
      obtain rfl : gn = v := by injection hv
      exact ⟨tent, by omega, hlookup_self⟩
    · exact ⟨v, le_refl v, (hlookup_ne x hx) ▸ hv⟩
  · intro e he
    rw [pushState]
    exact List.mem_cons_of_mem _ he
  · exact ⟨tent, le_refl _, hlookup_self⟩
  · intro x
    by_cases hx : x = n
    · subst hx
      exact Or.inl ⟨tent, hlookup_self, List.mem_cons_self _ _⟩
    · exact Or.inr (hlookup_ne x hx)
  · have hg2 : (pushState grid goal current st n gcur).g_score = updA st.g_score n tent := rfl
    have hopen : (pushState grid goal current st n gcur).open_set.length =
        st.open_set.length + 1 := rfl
    have hsum := sumPlus_updA_some tent hgn
    rw [Phi, Phi, hg2, hopen, hglen]
    omega
  · rw [pushState]
    dsimp only
    rw [hclen]
  · intro hfree hb
    rw [pushState]
    intro q hq
    dsimp only at hq ⊢
    rw [hclen]
    rcases (mem_updA_nodup hinv.g_nodup).mp hq with rfl | ⟨hq2, _⟩
    · dsimp only
      have h1 := hb (n, gn) (lookupA_mem hgn)
      omega
    · exact hb q hq2

theorem relaxNbr_spec {grid : Grid} {start goal : Coord} {st st' : AState} {current n : Coord}
    {gcur : ℕ} (hinv : AInvCore grid start goal st)
    (hcur : lookupA st.g_score current = some gcur)
    (hn : n ∈ get_neighbors current grid)
    (h : relaxNbr grid goal current st n = some st') :
    RelaxSpec grid start goal st st' current n gcur := by
  cases hgn : lookupA st.g_score n with
  | none =>
    rw [relaxNbr_fresh hcur hgn] at h
    obtain rfl : pushState grid goal current st n gcur = st' := by injection h
    exact relaxSpec_fresh hinv hcur hn hgn
  | some gn =>
    by_cases hlt : gcur + move_cost grid n < gn
    · rw [relaxNbr_improve hcur hgn hlt] at h
      obtain rfl : pushState grid goal current st n gcur = st' := by injection h
      exact relaxSpec_improve hinv hcur hn hgn hlt
    · rw [relaxNbr_noop hcur hgn hlt] at h
      obtain rfl : st = st' := by injection h
      exact relaxSpec_noop hinv hcur hgn hlt

theorem foldRelax_spec {grid : Grid} {start goal : Coord} {current : Coord} {gcur : ℕ}
    {ns : List Coord} :
    ∀ {st st' : AState}, AInvCore grid start goal st →
    lookupA st.g_score current = some gcur →
    (∀ n ∈ ns, n ∈ get_neighbors current grid) →
    foldRelax grid goal current st ns = some st' →
    AInvCore grid start goal st' ∧
    lookupA st'.g_score current = some gcur ∧
    (∀ x v, lookupA st.g_score x = some v → ∃ v', v' ≤ v ∧ lookupA st'.g_score x = some v') ∧
    (∀ e ∈ st.open_set, e ∈ st'.open_set) ∧
    (∀ n ∈ ns, ∃ vn, vn ≤ gcur + move_cost grid n ∧ lookupA st'.g_score n = some vn) ∧
    (∀ x, (∃ v, lookupA st'.g_score x = some v ∧ (v + heuristic x goal, v, x) ∈ st'.open_set) ∨
      lookupA st'.g_score x = lookupA st.g_score x) ∧
    Phi grid st' ≤ Phi grid st ∧
    st.came_from.length ≤ st'.came_from.length ∧
    (FreeGrid grid → gBoundFree st → gBoundFree st') := by
  induction ns with
  | nil =>
    intro st st' hinv hcur _ h
    obtain rfl : st = st' := by
      rw [foldRelax] at h
      injection h
    exact ⟨hinv, hcur, fun x v hv => ⟨v, le_refl v, hv⟩, fun e he => he,
      fun n hn => by simp at hn, fun x => Or.inr rfl, le_refl _, le_refl _, fun _ hb => hb⟩
  | cons n ns ih =>
    intro st st' hinv hcur hns h
    rw [foldRelax] at h
    cases h1 : relaxNbr grid goal current st n with
    | none => rw [h1] at h; exact Option.noConfusion h
    | some st1 =>
      rw [h1] at h
      dsimp only at h
      obtain ⟨hinv1, hcur1, hmono1, hopen1, hvn1, hfa1, hphi1, hclen1, hfree1⟩ :=
        relaxNbr_spec hinv hcur (hns n (List.mem_cons_self _ _)) h1
      obtain ⟨hinv2, hcur2, hmono2, hopen2, hvn2, hfa2, hphi2, hclen2, hfree2⟩ :=
        ih hinv1 hcur1 (fun m hm => hns m (List.mem_cons_of_mem _ hm)) h
      refine ⟨hinv2, hcur2, ?_, ?_, ?_, ?_, ?_, ?_, ?_⟩
      · intro x v hv
        obtain ⟨v1, hv1le, hv1⟩ := hmono1 x v hv
        obtain ⟨v2, hv2le, hv2⟩ := hmono2 x v1 hv1
        exact ⟨v2, le_trans hv2le hv1le, hv2⟩
      · intro e he
        exact hopen2 e (hopen1 e he)
      · intro m hm
        rcases List.mem_cons.mp hm with rfl | hm2
        · obtain ⟨vn, hvnle, hvn⟩ := hvn1
          obtain ⟨v2, hv2le, hv2⟩ := hmono2 m vn hvn
          exact ⟨v2, le_trans hv2le hvnle, hv2⟩
        · exact hvn2 m hm2
      · intro x
        rcases hfa2 x with h2 | h2
        · exact Or.inl h2
        · rcases hfa1 x with h3 | h3
          · obtain ⟨v, hv, hmem⟩ := h3
            exact Or.inl ⟨v, h2 ▸ hv, hopen2 _ hmem⟩
          · exact Or.inr (h2.trans h3)
      · exact le_trans hphi2 hphi1
      · exact le_trans hclen1 hclen2
      · intro hfr hb
        exact hfree2 hfr (hfree1 hfr hb)

theorem foldRelax_isSome {grid : Grid} {start goal current : Coord} {gcur : ℕ}
    {ns : List Coord} :
    ∀ {st : AState}, AInvCore grid start goal st →
    lookupA st.g_score current = some gcur →
    (∀ n ∈ ns, n ∈ get_neighbors current grid) →
    ∃ st', foldRelax grid goal current st ns = some st' := by
  induction ns with
  | nil =>
    intro st _ _ _
    exact ⟨st, rfl⟩
  | cons n ns ih =>
    intro st hinv hcur hns
    obtain ⟨st1, h1⟩ := relaxNbr_isSome n hcur
    obtain spec := relaxNbr_spec hinv hcur (hns n (List.mem_cons_self _ _)) h1
    obtain ⟨st', h2⟩ := ih spec.1 spec.2.1 (fun m hm => hns m (List.mem_cons_of_mem _ hm))
    refine ⟨st', ?_⟩
    rw [foldRelax, h1]
    exact h2

theorem step_preserves {grid : Grid} {start goal : Coord} {st : AState}
    {e : ℕ × ℕ × Coord} {rest : List (ℕ × ℕ × Coord)} {st' : AState}
    (hinv : AInv grid start goal st)
    (hpop : popMinBy entryLe st.open_set = some (e, rest))
    (hgoal : e.2.2 ≠ goal)
    (hfold : foldRelax grid goal e.2.2 { st with open_set := rest }
      (get_neighbors e.2.2 grid) = some st') :
    AInv grid start goal st' ∧ Phi grid st' < Phi grid st ∧
    (FreeGrid grid → gBoundFree st → gBoundFree st') := by
  obtain ⟨hcore, hrelax⟩ := hinv
  have hcore1 : AInvCore grid start goal { st with open_set := rest } :=
    ⟨hcore.g_nodup, hcore.c_nodup, hcore.g_sub, hcore.g_start,
      fun e' he' => hcore.open_inv e' (popMinBy_subset hpop e' he'),
      hcore.came_inv, hcore.keys_iff, hcore.len_rel, hcore.val_bound⟩
  obtain ⟨gcur, hcur, -, -⟩ := hcore.open_inv e (popMinBy_mem hpop)
  obtain ⟨hinv', hcur', hmono, hopen, hvn, hfa, hphi, hclen, hfree⟩ :=
    foldRelax_spec hcore1 hcur (fun n hn => hn) hfold
  have hrelax' : relaxClause grid goal st' := by
    intro q hq
    have hlq : lookupA st'.g_score q.1 = some q.2 := mem_lookupA_nodup hinv'.g_nodup hq
    by_cases hqc : q.1 = e.2.2
    · refine Or.inr ⟨hqc ▸ hgoal, ?_⟩
      intro n hn
      obtain ⟨vn, hvnle, hvnl⟩ := hvn n (hqc ▸ hn)
      refine ⟨vn, hvnl, ?_⟩
      have hq2 : q.2 = gcur := by
        rw [hqc] at hlq
        rw [hcur'] at hlq
        injection hlq.symm
      rw [hq2]
      exact hvnle
    · rcases hfa q.1 with ⟨v, hv, hmem⟩ | heq
      · obtain rfl : v = q.2 := by
          rw [hlq] at hv
          injection hv with h2
          exact h2.symm
        exact Or.inl hmem
      · have hlq0 : lookupA st.g_score q.1 = some q.2 := by
          rw [← heq]
          exact hlq
        rcases hrelax (q.1, q.2) (lookupA_mem hlq0) with hleft | ⟨hqg, hnbr⟩
        · have hEe : ((q.2 + heuristic q.1 goal, q.2, q.1) : ℕ × ℕ × Coord) ≠ e := by
            intro hEe
            exact hqc (congrArg (fun z => z.2.2) hEe)
          exact Or.inl (hopen _ (popMinBy_rest_mem hpop _ hleft hEe))
        · refine Or.inr ⟨hqg, ?_⟩
          intro n hn
          obtain ⟨vn, hvnl, hvnle⟩ := hnbr n hn
          obtain ⟨vn', hle', hvn'⟩ := hmono n vn hvnl
          exact ⟨vn', hvn', le_trans hle' hvnle⟩
  have hl := popMinBy_length entryLe st.open_set e rest hpop
  have hphi1 : Phi grid { st with open_set := rest } + 1 = Phi grid st := by
    rw [Phi, Phi]
    dsimp only
    omega
  exact ⟨⟨hinv', hrelax'⟩, by omega, fun hfr hb => hfree hfr hb⟩

theorem pop_core {grid : Grid} {start goal : Coord} {st : AState} {e : ℕ × ℕ × Coord}
    {rest : List (ℕ × ℕ × Coord)} (hcore : AInvCore grid start goal st)
    (hpop : popMinBy entryLe st.open_set = some (e, rest)) :
    AInvCore grid start goal { st with open_set := rest } :=
  ⟨hcore.g_nodup, hcore.c_nodup, hcore.g_sub, hcore.g_start,
    fun e' he' => hcore.open_inv e' (popMinBy_subset hpop e' he'),
    hcore.came_inv, hcore.keys_iff, hcore.len_rel, hcore.val_bound⟩

theorem aStarLoop_total {grid : Grid} {start goal : Coord} :
    ∀ (fuel : ℕ) (st : AState), AInv grid start goal st → Phi grid st < fuel →
    ∃ p, aStarLoop grid goal fuel st = ARes.ok p := by
  intro fuel
  induction fuel with
  | zero =>
    intro st _ h
    omega
  | succ fuel ih =>
    intro st hinv hphi
    rw [aStarLoop]
    cases hpop : popMinBy entryLe st.open_set with
    | none => exact ⟨[], rfl⟩
    | some pr =>
      obtain ⟨e, rest⟩ := pr
      obtain ⟨f, g, current⟩ := e
      dsimp only
      by_cases hg : current = goal
      · rw [if_pos hg]
        exact ⟨_, rfl⟩
      · rw [if_neg hg]
        obtain ⟨gcur, hcur, -, -⟩ := hinv.1.open_inv (f, g, current) (popMinBy_mem hpop)
        obtain ⟨st', hfold⟩ := foldRelax_isSome (pop_core hinv.1 hpop) hcur
          (fun n hn => hn)
        rw [hfold]
        obtain ⟨hinv', hphidec, -⟩ := step_preserves hinv hpop hg hfold
        exact ih st' hinv' (by omega)

theorem AInv_init (grid : Grid) (start goal : Coord) :
    AInv grid start goal (initAState start goal) := by
  constructor
  · refine ⟨?_, ?_, ?_, ?_, ?_, ?_, ?_, ?_, ?_⟩
    · simp [initAState]
    · simp [initAState]
    · intro k hk
      simp only [initAState, List.map_cons, List.map_nil, List.mem_singleton] at hk
      exact Or.inl hk
    · rw [initAState]
      dsimp only
      simp [lookupA]
    · intro e he
      simp only [initAState, List.mem_singleton] at he
      subst he
      refine ⟨0, by simp [lookupA], le_refl _, by simp⟩
    · intro q hq
      simp [initAState] at hq
    · intro k
      rw [initAState]
      dsimp only
      simp only [lookupA]
      constructor
      · intro hk
        split_ifs at hk with h1
        · exact Or.inl h1.symm
        · simp at hk
      · rintro (rfl | h1)
        · rw [if_pos rfl]
          rfl
        · simp at h1
    · simp [initAState]
    · intro q hq
      simp only [initAState, List.mem_singleton] at hq
      subst hq
      simp [initAState]
  · intro q hq
    simp only [initAState, List.mem_singleton] at hq
    subst hq
    left
    simp [initAState]

theorem gBoundFree_init (start goal : Coord) : gBoundFree (initAState start goal) := by
  intro q hq
  simp only [initAState, List.mem_singleton] at hq
  subst hq
  simp [initAState]

theorem Phi_init (grid : Grid) (start goal : Coord) :
    Phi grid (initAState start goal) <
      grid.rows * grid.cols * (5 * (grid.rows * grid.cols) + 7) + 3 := by
  rw [Phi, initAState]
  dsimp only
  rw [sumPlus]
  simp only [List.map_cons, List.map_nil, List.sum_cons, List.sum_nil, List.length_cons,
    List.length_nil]
  have h1 : grid.rows * grid.cols + 1 - 1 = grid.rows * grid.cols := by omega
  rw [h1]
  have h2 : grid.rows * grid.cols * (5 * (grid.rows * grid.cols + 1) + 2) =
      grid.rows * grid.cols * (5 * (grid.rows * grid.cols) + 7) := by ring
  rw [h2]
  omega

theorem a_star_eq_loop (grid : Grid) (start goal : Coord) :
    a_star grid start goal =
      aStarLoop grid goal (grid.rows * grid.cols * (5 * (grid.rows * grid.cols) + 7) + 3)
        (initAState start goal) := rfl

theorem a_star_total (grid : Grid) (start goal : Coord) :
    ∃ p, a_star grid start goal = ARes.ok p := by
  rw [a_star_eq_loop]
  exact aStarLoop_total _ _ (AInv_init grid start goal) (Phi_init grid start goal)

theorem open_witness_aux {grid : Grid} {start goal : Coord} {st : AState}
    (hfree : FreeGrid grid) (hg : inb grid goal) (hinv : AInv grid start goal st) :
    ∀ (k : ℕ) (c : Coord) (v : ℕ), inb grid c →
      heuristic start c + heuristic c goal = heuristic start goal →
      heuristic c goal ≤ k →
      lookupA st.g_score c = some v → v ≤ heuristic start c →
      ∃ e ∈ st.open_set, e.1 ≤ heuristic start goal := by
  intro k
  induction k with
  | zero =>
    intro c v hc hadd hk hlook hv
    have hcg : c = goal := heuristic_eq_zero.mp (by omega)
    rcases hinv.2 (c, v) (lookupA_mem hlook) with hleft | ⟨hne, -⟩
    · refine ⟨(v + heuristic c goal, v, c), hleft, ?_⟩
      dsimp only
      omega
    · exact absurd hcg hne
  | succ k ih =>
    intro c v hc hadd hk hlook hv
    rcases hinv.2 (c, v) (lookupA_mem hlook) with hleft | ⟨hne, hnbr⟩
    · refine ⟨(v + heuristic c goal, v, c), hleft, ?_⟩
      dsimp only
      omega
    · obtain ⟨n, hn, hstep⟩ := exists_step_toward grid hfree hc hg hne
      obtain ⟨vn, hlook_n, hle_n⟩ := hnbr n hn
      have hinb_n : inb grid n := inb_of_mem_get_neighbors hn
      have hcost : move_cost grid n = 1 := move_cost_free hfree hinb_n
      have hadj : heuristic c n = 1 := heuristic_adj hn
      have htri1 : heuristic start n ≤ heuristic start c + 1 := by
        have := heuristic_triangle start c n
        omega
      have htri2 : heuristic start goal ≤ heuristic start n + heuristic n goal :=
        heuristic_triangle start n goal
      have hdn : heuristic start n = heuristic start c + 1 := by omega
      have hadd' : heuristic start n + heuristic n goal = heuristic start goal := by omega
      exact ih n vn hinb_n hadd' (by omega) hlook_n (by omega)

theorem open_witness {grid : Grid} {start goal : Coord} {st : AState}
    (hfree : FreeGrid grid) (hstart : inb grid start) (hg : inb grid goal)
    (hinv : AInv grid start goal st) :
    ∃ e ∈ st.open_set, e.1 ≤ heuristic start goal := by
  refine open_witness_aux hfree hg hinv (heuristic start goal) start 0 hstart ?_ (le_refl _)
    hinv.1.g_start ?_
  · rw [heuristic_self, zero_add]
  · rw [heuristic_self]

theorem reconstructAux_spec {grid : Grid} {start goal : Coord} {st : AState}
    (hinv : AInv grid start goal st) :
    ∀ (fuel : ℕ) (c : Coord) (vc : ℕ), lookupA st.g_score c = some vc → vc < fuel →
      heuristic start c ≤ (reconstructAux st.came_from fuel c).length ∧
      (reconstructAux st.came_from fuel c).length ≤ vc := by
  intro fuel
  induction fuel with
  | zero =>
    intro c vc _ h
    omega
  | succ fuel ih =>
    intro c vc hlook hfuel
    cases hcf : lookupA st.came_from c with
    | none =>
      have hcs : c = start := by
        have h1 := (hinv.1.keys_iff c).mp (by rw [hlook]; rfl)
        rcases h1 with h1 | h1
        · exact h1
        · rw [hcf] at h1
          simp at h1
      subst hcs
      rw [reconstructAux, hcf]
      dsimp only
      rw [heuristic_self]
      simp
    | some p =>
      rw [reconstructAux, hcf]
      dsimp only
      obtain ⟨vc', vp, hvc', hvp, hle, hmem, -⟩ := hinv.1.came_inv (c, p) (lookupA_mem hcf)
      dsimp only at hvc' hvp hle hmem
      obtain rfl : vc' = vc := by
        rw [hlook] at hvc'
        injection hvc' with h2
        exact h2.symm
      have hcost := move_cost_pos grid c
      have hadj : heuristic p c = 1 := heuristic_adj hmem
      obtain ⟨hlow, hhigh⟩ := ih p vp hvp (by omega)
      constructor
      · have := heuristic_triangle start p c
        simp only [List.length_cons]
        omega
      · simp only [List.length_cons]
        omega

theorem aStarLoop_free {grid : Grid} {start goal : Coord} (hfree : FreeGrid grid)
    (hstart : inb grid start) (hgoal : inb grid goal) :
    ∀ (fuel : ℕ) (st : AState), AInv grid start goal st → gBoundFree st → Phi grid st < fuel →
    ∃ p, aStarLoop grid goal fuel st = ARes.ok p ∧ p.length = heuristic start goal := by
  intro fuel
  induction fuel with
  | zero =>
    intro st _ _ h
    omega
  | succ fuel ih =>
    intro st hinv hb hphi
    rw [aStarLoop]
    cases hpop : popMinBy entryLe st.open_set with
    | none =>
      exfalso
      obtain ⟨e, he, -⟩ := open_witness hfree hstart hgoal hinv
      rw [popMinBy_none hpop] at he
      simp at he
    | some pr =>
      obtain ⟨e, rest⟩ := pr
      obtain ⟨f, g, current⟩ := e
      dsimp only
      by_cases hg : current = goal
      · rw [if_pos hg]
        subst hg
        refine ⟨_, rfl, ?_⟩
        obtain ⟨w, hw, hwle⟩ := open_witness hfree hstart hgoal hinv
        have hminw := popMinBy_min hpop w hw
        have hfD : f ≤ heuristic start current := le_trans (entryLe_fst hminw) hwle
        obtain ⟨v, hv, hvle, hform⟩ := hinv.1.open_inv (f, g, current) (popMinBy_mem hpop)
        dsimp only at hv hvle hform
        rw [heuristic_self] at hform
        have hvD : v ≤ heuristic start current := by omega
        have hfuelc : v < st.came_from.length + 1 := by
          have := hb (current, v) (lookupA_mem hv)
          omega
        obtain ⟨hlow, hhigh⟩ :=
          reconstructAux_spec hinv (st.came_from.length + 1) current v hv hfuelc
        rw [reconstruct_path, List.length_reverse]
        omega
      · rw [if_neg hg]
        obtain ⟨gcur, hcur, -, -⟩ := hinv.1.open_inv (f, g, current) (popMinBy_mem hpop)
        obtain ⟨st', hfold⟩ := foldRelax_isSome (pop_core hinv.1 hpop) hcur
          (fun n hn => hn)
        rw [hfold]
        obtain ⟨hinv', hphidec, hfr⟩ := step_preserves hinv hpop hg hfold
        exact ih st' hinv' (hfr hfree hb) (by omega)

theorem a_star_free_length (grid : Grid) (start goal : Coord) (hfree : FreeGrid grid)
    (hstart : inb grid start) (hgoal : inb grid goal) :
    ∃ p, a_star grid start goal = ARes.ok p ∧ p.length = heuristic start goal := by
  rw [a_star_eq_loop]
  exact aStarLoop_free hfree hstart hgoal _ _ (AInv_init grid start goal)
    (gBoundFree_init start goal) (Phi_init grid start goal)

/-- Claim C2 (amended): for every grid and in-bounds start and goal,
`a_star` runs to a normal result; `ucs` raises `NameError` exactly when
`start ≠ goal` and `start` has no in-bounds non-obstacle neighbor, and
otherwise returns normally (the empty sequence). -/
theorem c2_amended_total_except_ucs_unbound (grid : Grid) (start goal : Coord)
    (_hstart : inb grid start) (_hgoal : inb grid goal) :
    (∃ p, a_star grid start goal = ARes.ok p) ∧
    (ucs grid start goal = URes.nameError ↔ start ≠ goal ∧ get_neighbors start grid = []) ∧
    (¬(start ≠ goal ∧ get_neighbors start grid = []) → ucs grid start goal = URes.ok []) := by
  refine ⟨a_star_total grid start goal, ucs_nameError_iff grid start goal, ?_⟩
  intro h
  by_cases he : start = goal
  · exact ucs_ok_of_eq grid he
  · have hnb : get_neighbors start grid ≠ [] := fun hh => h ⟨he, hh⟩
    exact ucs_ok_empty grid start goal he hnb

theorem c2_amended_witness :
    (inb free2 (0, 0) ∧ inb free2 (1, 1)) ∧
    ((∃ p, a_star free2 (0, 0) (1, 1) = ARes.ok p) ∧
     (ucs free2 (0, 0) (1, 1) = URes.nameError ↔
       (0, 0) ≠ ((1 : ℤ), (1 : ℤ)) ∧ get_neighbors (0, 0) free2 = []) ∧
     (¬((0, 0) ≠ ((1 : ℤ), (1 : ℤ)) ∧ get_neighbors (0, 0) free2 = []) →
       ucs free2 (0, 0) (1, 1) = URes.ok [])) :=
  ⟨⟨by decide, by decide⟩,
    c2_amended_total_except_ucs_unbound free2 (0, 0) (1, 1) (by decide) (by decide)⟩

/-- Claim C4: on every grid with no obstacle and no slow-terrain cell,
for every in-bounds start and goal, `a_star` returns a path whose length
equals the Manhattan distance between start and goal. -/
theorem c4_astar_path_length_on_free_grid (grid : Grid) (start goal : Coord)
    (hfree : FreeGrid grid) (hstart : inb grid start) (hgoal : inb grid goal) :
    ∃ p, a_star grid start goal = ARes.ok p ∧ p.length = heuristic start goal :=
  a_star_free_length grid start goal hfree hstart hgoal

theorem c4_witness :
    (FreeGrid free5 ∧ inb free5 (0, 0) ∧ inb free5 (4, 3)) ∧
    (∃ p, a_star free5 (0, 0) (4, 3) = ARes.ok p ∧
      p.length = heuristic (0, 0) ((4 : ℤ), (3 : ℤ))) :=
  ⟨⟨fun c _ => by norm_num [free5], by decide, by decide⟩,
    c4_astar_path_length_on_free_grid free5 (0, 0) (4, 3) (fun c _ => by norm_num [free5])
      (by decide) (by decide)⟩

/-- Claim C10: `a_star` terminates on every finite grid with in-bounds
start and goal, returning a normal result: a coordinate is re-enqueued
only when its recorded `g_score` strictly decreases, scores are
non-negative integers bounded via the finitely many recordable keys, so
the potential `Phi` strictly decreases and the loop fuel never runs
out. -/
theorem c10_astar_terminates (grid : Grid) (start goal : Coord)
    (_hstart : inb grid start) (_hgoal : inb grid goal) :
    ∃ p, a_star grid start goal = ARes.ok p :=
  a_star_total grid start goal

theorem c10_witness :
    (inb gA (0, 0) ∧ inb gA (2, 2)) ∧ (∃ p, a_star gA (0, 0) (2, 2) = ARes.ok p) :=
  ⟨⟨by decide, by decide⟩, c10_astar_terminates gA (0, 0) (2, 2) (by decide) (by decide)⟩
